import Mathlib

/-!
# NR PDCP entity (`openair2/LAYER2/nr_pdcp/nr_pdcp_entity.c`)

A shallow embedding of the receive / transmit / timer operations of the NR PDCP
entity, followed by theorems about them.

Conventions of the embedding.

* `uint32_t` values (`tx_next`, `rx_next`, `rx_deliv`, `rx_reord`, the local
  `rcvd_hfn`, `rcvd_count`, `count`) are natural numbers; every operation that
  can leave the range is followed by `% UINT32`.
* Time values (`t_current`, `t_reordering_start`) have the type of the argument
  `now` of `nr_pdcp_entity_set_time`, `uint64_t`; the sum
  `t_reordering_start + t_reordering` is computed modulo `UINT64`, the `int`
  `t_reordering` being converted to `uint64_t` first.
* `int` values that take part in signed comparisons (`rcvd_sn`, `rx_deliv_sn`,
  `window_size`) are compared in `Int`.
* A PDU or SDU buffer is a list of bytes, its `size` is the length of the list.
  A byte read through `unsigned char` is reduced `% 256`.
* The callback `deliver_sdu` is modelled by the list of SDU records handed to
  it, in call order; `deliver_pdu` by the PDU (and `sdu_id`) handed to it.
* `exit(1)` is the result `none`.
-/

namespace NrPdcp

/-- The modulus of `uint32_t` arithmetic. -/
def UINT32 : Nat := 4294967296

/-- The modulus of `uint64_t` arithmetic. -/
def UINT64 : Nat := 18446744073709551616

/-- The cast `(unsigned char)b`. -/
def byte (b : Nat) : Nat := b % 256

/-- The record `nr_pdcp_sdu_t`: the COUNT of a received SDU and its payload
(`size` is `buffer.length`, `next` is the tail of the list holding it). -/
structure nr_pdcp_sdu_t where
  count : Nat
  buffer : List Nat
deriving DecidableEq, Repr

/-- The record `nr_pdcp_entity_t`, without the callback pointers and the
unused integrity fields. -/
structure nr_pdcp_entity_t where
  is_gnb : Bool
  rb_id : Int
  sn_size : Nat
  t_reordering : Int
  discard_timer : Int
  sn_max : Nat
  window_size : Nat
  tx_next : Nat
  rx_next : Nat
  rx_deliv : Nat
  rx_reord : Nat
  t_current : Nat
  t_reordering_start : Nat
  has_ciphering : Bool
  ciphering_algorithm : Int
  ciphering_key : List Nat
  rx_list : List nr_pdcp_sdu_t
  rx_size : Int
deriving DecidableEq, Repr

/-- Modelled from the spec: the cipher provider `entity->cipher`
(`nr_pdcp_security_nea2_cipher`, not part of this file). It XOR-masks the
buffer with a keystream derived from `(key, count, bearer_id, direction)`; the
keystream itself, `ks key bearer count direction i` for the byte at offset `i`,
is a parameter. -/
def cipher (ks : List Nat → Int → Nat → Nat → Nat → Nat) (key : List Nat)
    (buffer : List Nat) (bearer : Int) (count : Nat) (direction : Nat) : List Nat :=
  (List.range buffer.length).zipWith (fun i b => b ^^^ ks key bearer count direction i) buffer

/-- Modelled from the spec: `nr_pdcp_new_sdu` (in `nr_pdcp_sdu.c`), the SDU
record holding `(rcvd_count, payload_copy, payload_size)`. -/
def nr_pdcp_new_sdu (count : Nat) (buffer : List Nat) : nr_pdcp_sdu_t :=
  { count := count, buffer := buffer }

/-- Modelled from the spec: `nr_pdcp_sdu_in_list` (in `nr_pdcp_sdu.c`), the
membership test by COUNT. -/
def nr_pdcp_sdu_in_list : List nr_pdcp_sdu_t → Nat → Bool
  | [], _ => false
  | cur :: l, count => if cur.count = count then true else nr_pdcp_sdu_in_list l count

/-- Modelled from the spec: `nr_pdcp_sdu_list_add` (in `nr_pdcp_sdu.c`), the
insert into `rx_list` in ascending-COUNT order: the new record goes before the
first record with a greater COUNT. -/
def nr_pdcp_sdu_list_add : List nr_pdcp_sdu_t → nr_pdcp_sdu_t → List nr_pdcp_sdu_t
  | [], sdu => [sdu]
  | cur :: l, sdu =>
    if cur.count > sdu.count then sdu :: cur :: l
    else cur :: nr_pdcp_sdu_list_add l sdu

/-- The result of one of the two loops
`while (rx_list != NULL && count == rx_list->count) { deliver; pop; count++; }`:
the SDUs delivered, the list left, and the final `count`. -/
structure drain_t where
  delivered : List nr_pdcp_sdu_t
  rest : List nr_pdcp_sdu_t
  count : Nat
deriving DecidableEq, Repr

/-- The loop "deliver all SDUs starting from `count` up to discontinuity or end
of list" of `nr_pdcp_entity_recv_pdu` and `check_t_reordering`. -/
def deliver_contiguous : Nat → List nr_pdcp_sdu_t → drain_t
  | count, [] => { delivered := [], rest := [], count := count }
  | count, cur :: l =>
    if count = cur.count then
      let r := deliver_contiguous ((count + 1) % UINT32) l
      { delivered := cur :: r.delivered, rest := r.rest, count := r.count }
    else { delivered := [], rest := cur :: l, count := count }

/-- The loop "deliver all SDUs with count < rx_reord" of `check_t_reordering`:
the SDUs delivered and the list left. -/
def deliver_below (rx_reord : Nat) : List nr_pdcp_sdu_t → List nr_pdcp_sdu_t × List nr_pdcp_sdu_t
  | [] => ([], [])
  | cur :: l =>
    if cur.count < rx_reord then
      (cur :: (deliver_below rx_reord l).1, (deliver_below rx_reord l).2)
    else ([], cur :: l)

/-- The total size of a list of SDU records (what the loops subtract from
`rx_size`). -/
def sdu_bytes (l : List nr_pdcp_sdu_t) : Int :=
  (l.map fun s => (s.buffer.length : Int)).sum

/-- The header decode of `nr_pdcp_entity_recv_pdu`: `rcvd_sn`. A byte read past
the last byte of the buffer is taken as 0 (its value is not used, since the size
check that follows drops the PDU). -/
def decode_rcvd_sn (sn_size : Nat) (buffer : List Nat) : Nat :=
  if sn_size = 12 then
    ((byte (buffer.getD 0 0) &&& 0xf) <<< 8) ||| byte (buffer.getD 1 0)
  else
    ((byte (buffer.getD 0 0) &&& 0x3) <<< 16) ||| (byte (buffer.getD 1 0) <<< 8)
      ||| byte (buffer.getD 2 0)

/-- The header decode of `nr_pdcp_entity_recv_pdu`: `header_size`. -/
def decode_header_size (sn_size : Nat) : Nat :=
  if sn_size = 12 then 2 else 3

/-- The HFN inference and COUNT computation of `nr_pdcp_entity_recv_pdu`
(`rx_deliv_sn`, `rx_deliv_hfn`, `rcvd_hfn`, `rcvd_count`). -/
def infer_rcvd_count (entity : nr_pdcp_entity_t) (rcvd_sn : Nat) : Nat :=
  let rx_deliv_sn := entity.rx_deliv &&& entity.sn_max
  let rx_deliv_hfn :=
    (entity.rx_deliv >>> entity.sn_size) &&& ((UINT32 - 1 - entity.sn_max) % UINT32)
  let rcvd_hfn :=
    if (rcvd_sn : Int) < (rx_deliv_sn : Int) - (entity.window_size : Int) then
      (rx_deliv_hfn + 1) % UINT32
    else if (rcvd_sn : Int) ≥ (rx_deliv_sn : Int) + (entity.window_size : Int) then
      (rx_deliv_hfn + UINT32 - 1) % UINT32
    else rx_deliv_hfn
  ((rcvd_hfn <<< entity.sn_size) % UINT32) ||| rcvd_sn

/-- The part of `nr_pdcp_entity_recv_pdu` after the duplicate / stale check:
insert, advance `rx_next`, in-order delivery, t-Reordering management. -/
def recv_accepted (entity : nr_pdcp_entity_t) (rcvd_count : Nat) (payload : List Nat) :
    nr_pdcp_entity_t × List nr_pdcp_sdu_t :=
  let sdu := nr_pdcp_new_sdu rcvd_count payload
  let e1 := { entity with
    rx_list := nr_pdcp_sdu_list_add entity.rx_list sdu
    rx_size := entity.rx_size + (payload.length : Int) }
  let e2 := if rcvd_count ≥ e1.rx_next then
      { e1 with rx_next := (rcvd_count + 1) % UINT32 } else e1
  let r := deliver_contiguous e2.rx_deliv e2.rx_list
  let e3 := if rcvd_count = e2.rx_deliv then
      { e2 with rx_list := r.rest, rx_size := e2.rx_size - sdu_bytes r.delivered,
                rx_deliv := r.count } else e2
  let delivered := if rcvd_count = e2.rx_deliv then r.delivered else []
  let e4 := if e3.t_reordering_start ≠ 0 ∧ e3.rx_deliv > e3.rx_reord then
      { e3 with t_reordering_start := 0 } else e3
  let e5 := if e4.t_reordering_start = 0 ∧ e4.rx_deliv < e4.rx_next then
      { e4 with rx_reord := e4.rx_next, t_reordering_start := e4.t_current } else e4
  (e5, delivered)

/-- The function `nr_pdcp_entity_recv_pdu`. The result is `none` for `exit(1)`,
otherwise the entity afterwards and the SDUs passed to `deliver_sdu`, in call
order. -/
def nr_pdcp_entity_recv_pdu (ks : List Nat → Int → Nat → Nat → Nat → Nat)
    (entity : nr_pdcp_entity_t) (buffer : List Nat) :
    Option (nr_pdcp_entity_t × List nr_pdcp_sdu_t) :=
  let size := buffer.length
  if size < 1 then some (entity, [])
  else if byte (buffer.getD 0 0) &&& 0x80 = 0 then none
  else
    let rcvd_sn := decode_rcvd_sn entity.sn_size buffer
    let header_size := decode_header_size entity.sn_size
    let integrity_size := 0
    if size < header_size + integrity_size + 1 then some (entity, [])
    else
      let rcvd_count := infer_rcvd_count entity rcvd_sn
      let payload :=
        if entity.has_ciphering then
          cipher ks entity.ciphering_key (buffer.drop header_size) entity.rb_id rcvd_count
            (if entity.is_gnb then 0 else 1)
        else buffer.drop header_size
      if rcvd_count < entity.rx_deliv ∨ nr_pdcp_sdu_in_list entity.rx_list rcvd_count = true then
        some (entity, [])
      else some (recv_accepted entity rcvd_count payload)

/-- The header build of `nr_pdcp_entity_recv_sdu`: the bytes `buf[0 ..
header_size)` for the SN `sn`. -/
def encode_header (sn_size : Nat) (sn : Nat) : List Nat :=
  if sn_size = 12 then
    [byte (0x80 ||| ((sn >>> 8) &&& 0xf)), byte (sn &&& 0xff)]
  else
    [byte (0x80 ||| ((sn >>> 16) &&& 0x3)), byte ((sn >>> 8) &&& 0xff), byte (sn &&& 0xff)]

/-- The function `nr_pdcp_entity_recv_sdu`: the entity afterwards and the
arguments `(buf, sdu_id)` of the single `deliver_pdu` call. -/
def nr_pdcp_entity_recv_sdu (ks : List Nat → Int → Nat → Nat → Nat → Nat)
    (entity : nr_pdcp_entity_t) (buffer : List Nat) (sdu_id : Int) :
    nr_pdcp_entity_t × (List Nat × Int) :=
  let count := entity.tx_next
  let sn := entity.tx_next &&& entity.sn_max
  let header := encode_header entity.sn_size sn
  let payload :=
    if entity.has_ciphering then
      cipher ks entity.ciphering_key buffer entity.rb_id count (if entity.is_gnb then 1 else 0)
    else buffer
  ({ entity with tx_next := (entity.tx_next + 1) % UINT32 }, (header ++ payload, sdu_id))

/-- The function `check_t_reordering`: the entity afterwards and the SDUs
passed to `deliver_sdu`, in call order. -/
def check_t_reordering (entity : nr_pdcp_entity_t) :
    nr_pdcp_entity_t × List nr_pdcp_sdu_t :=
  if entity.t_reordering_start = 0
      ∨ (entity.t_current : Int)
          ≤ ((entity.t_reordering_start : Int) + entity.t_reordering) % (UINT64 : Int) then
    (entity, [])
  else
    let below := deliver_below entity.rx_reord entity.rx_list
    let r := deliver_contiguous entity.rx_reord below.2
    let e1 := { entity with
      t_reordering_start := 0
      rx_list := r.rest
      rx_size := entity.rx_size - sdu_bytes below.1 - sdu_bytes r.delivered
      rx_deliv := r.count }
    let e2 := if e1.rx_deliv < e1.rx_next then
        { e1 with rx_reord := e1.rx_next, t_reordering_start := e1.t_current } else e1
    (e2, below.1 ++ r.delivered)

/-- The function `nr_pdcp_entity_set_time`; `now` is a `uint64_t`. -/
def nr_pdcp_entity_set_time (entity : nr_pdcp_entity_t) (now : Nat) :
    nr_pdcp_entity_t × List nr_pdcp_sdu_t :=
  check_t_reordering { entity with t_current := now % UINT64 }

/-- The function `new_nr_pdcp_entity`, `none` for `exit(1)`. The entity comes
from `calloc`, so every field not assigned is 0; a key pointer is `none` for
`NULL`. -/
def new_nr_pdcp_entity (is_gnb : Bool) (rb_id : Int) (sn_size : Nat) (t_reordering : Int)
    (discard_timer : Int) (ciphering_algorithm : Int) (integrity_algorithm : Int)
    (ciphering_key : Option (List Nat)) (integrity_key : Option (List Nat)) :
    Option nr_pdcp_entity_t :=
  let ret : nr_pdcp_entity_t :=
    { is_gnb := false, rb_id := rb_id, sn_size := sn_size, t_reordering := t_reordering,
      discard_timer := discard_timer,
      sn_max := (1 <<< sn_size) - 1, window_size := 1 <<< (sn_size - 1),
      tx_next := 0, rx_next := 0, rx_deliv := 0, rx_reord := 0,
      t_current := 0, t_reordering_start := 0,
      has_ciphering := false, ciphering_algorithm := 0, ciphering_key := [],
      rx_list := [], rx_size := 0 }
  let _ := integrity_algorithm
  if ciphering_key.isSome ∧ ciphering_algorithm ≠ 0 ∧ ciphering_algorithm ≠ 2 then none
  else
    let ret1 :=
      if ciphering_key.isSome ∧ ciphering_algorithm ≠ 0 then
        { ret with has_ciphering := true, ciphering_algorithm := ciphering_algorithm,
                   ciphering_key := (ciphering_key.getD []).take 16 }
      else ret
    let ret2 := { ret1 with is_gnb := is_gnb }
    if integrity_key.isSome then none else some ret2

/-- A call made on an entity by the layers around it. -/
inductive call_t where
  | recv_pdu (buffer : List Nat)
  | set_time (now : Nat)
deriving DecidableEq, Repr

/-- One call: `none` when the call ends in `exit(1)`. -/
def call (ks : List Nat → Int → Nat → Nat → Nat → Nat) (entity : nr_pdcp_entity_t) :
    call_t → Option (nr_pdcp_entity_t × List nr_pdcp_sdu_t)
  | .recv_pdu buffer => nr_pdcp_entity_recv_pdu ks entity buffer
  | .set_time now => some (nr_pdcp_entity_set_time entity now)

/-- A sequence of calls: the entity at the end (`none` when a call ended in
`exit(1)`, after which nothing more runs) and all SDUs passed to `deliver_sdu`
over the whole run, in call order. -/
def run (ks : List Nat → Int → Nat → Nat → Nat → Nat) :
    nr_pdcp_entity_t → List call_t → Option nr_pdcp_entity_t × List nr_pdcp_sdu_t
  | entity, [] => (some entity, [])
  | entity, c :: cs =>
    match call ks entity c with
    | none => (none, [])
    | some (e1, d) => ((run ks e1 cs).1, d ++ (run ks e1 cs).2)

/-- A keystream that is 0 everywhere, for runs without ciphering. -/
def ks0 : List Nat → Int → Nat → Nat → Nat → Nat := fun _ _ _ _ _ => 0

/-- A data PDU with a 12-bit SN. -/
def pdu12 (sn : Nat) (payload : List Nat) : List Nat :=
  [0x80 ||| ((sn >>> 8) &&& 0xf), sn &&& 0xff] ++ payload

/-- Strictly ascending COUNTs from head to tail. -/
def ascending (l : List nr_pdcp_sdu_t) : Prop :=
  l.Pairwise fun a b => a.count < b.count

/-- The receive-side invariant: `rx_list` is strictly ascending, holds only
32-bit COUNTs at or above `rx_deliv`, and a running t-Reordering has
`rx_deliv ≤ rx_reord`. -/
structure rx_invariant (e : nr_pdcp_entity_t) : Prop where
  sorted : ascending e.rx_list
  above : ∀ s ∈ e.rx_list, e.rx_deliv ≤ s.count
  bound : ∀ s ∈ e.rx_list, s.count < UINT32
  reord : e.t_reordering_start ≠ 0 → e.rx_deliv ≤ e.rx_reord

/-- What one call does to the delivery order: `d`, the SDUs it delivers, are in
strictly ascending COUNT order, at or above the old `rx_deliv`, and, unless
COUNT `0xFFFFFFFF` is among them, below the new `rx_deliv`, which has not
moved back. -/
def delivery_ok (e e1 : nr_pdcp_entity_t) (d : List nr_pdcp_sdu_t) : Prop :=
  ascending d ∧ (∀ s ∈ d, e.rx_deliv ≤ s.count) ∧
    ((∀ s ∈ d, s.count ≠ UINT32 - 1) →
      (∀ s ∈ d, s.count < e1.rx_deliv) ∧ e.rx_deliv ≤ e1.rx_deliv)

/-- The COUNT that `nr_pdcp_entity_recv_pdu` infers for a PDU in a given
state (`rcvd_count`). -/
def pdu_count (entity : nr_pdcp_entity_t) (buffer : List Nat) : Nat :=
  infer_rcvd_count entity (decode_rcvd_sn entity.sn_size buffer)

/-- No PDU of the run is inferred the COUNT `0xFFFFFFFF` (after which
`rx_next = rcvd_count + 1` would wrap to 0). -/
def no_max_count (ks : List Nat → Int → Nat → Nat → Nat → Nat) :
    nr_pdcp_entity_t → List call_t → Bool
  | _, [] => true
  | entity, c :: cs =>
    (match c with
      | .recv_pdu buffer => decide (pdu_count entity buffer ≠ UINT32 - 1)
      | .set_time _ => true) &&
    (match call ks entity c with
      | none => true
      | some (e1, _) => no_max_count ks e1 cs)

/-- The entity is freshly constructed, with `sn_size` 12 or 18: all COUNTs 0,
`rx_list` empty, t-Reordering not running. -/
def is_initial (e0 : nr_pdcp_entity_t) : Prop :=
  ∃ (is_gnb : Bool) (rb_id : Int) (sn_size : Nat) (t_reordering discard_timer : Int)
    (ciphering_algorithm integrity_algorithm : Int)
    (ciphering_key integrity_key : Option (List Nat)),
    (sn_size = 12 ∨ sn_size = 18) ∧
    new_nr_pdcp_entity is_gnb rb_id sn_size t_reordering discard_timer ciphering_algorithm
      integrity_algorithm ciphering_key integrity_key = some e0

/-- A freshly constructed entity with a 12-bit SN, `t_reordering = 10` and no
ciphering. -/
def entity12 : nr_pdcp_entity_t :=
  { is_gnb := false, rb_id := 1, sn_size := 12, t_reordering := 10, discard_timer := 0,
    sn_max := 4095, window_size := 2048,
    tx_next := 0, rx_next := 0, rx_deliv := 0, rx_reord := 0,
    t_current := 0, t_reordering_start := 0,
    has_ciphering := false, ciphering_algorithm := 0, ciphering_key := [],
    rx_list := [], rx_size := 0 }

/-- A data PDU that passes the validation of `nr_pdcp_entity_recv_pdu`: at
least one byte, the D/C bit of byte 0 set, and at least one payload byte after
the header. -/
def well_formed_data_pdu (sn_size : Nat) (buffer : List Nat) : Prop :=
  1 ≤ buffer.length ∧ byte (buffer.getD 0 0) &&& 0x80 ≠ 0 ∧
    decode_header_size sn_size + 1 ≤ buffer.length

instance (sn_size : Nat) (buffer : List Nat) : Decidable (well_formed_data_pdu sn_size buffer) := by
  unfold well_formed_data_pdu
  infer_instance

/-- The PDUs that `nr_pdcp_entity_recv_sdu` hands to `deliver_pdu` when the
SDUs of a list are submitted one after the other. -/
def send_all (ks : List Nat → Int → Nat → Nat → Nat → Nat) :
    nr_pdcp_entity_t → List (List Nat) → List (List Nat)
  | _, [] => []
  | tx, sdu :: sdus =>
    (nr_pdcp_entity_recv_sdu ks tx sdu 0).2.1
      :: send_all ks (nr_pdcp_entity_recv_sdu ks tx sdu 0).1 sdus

/-- A transmitting and a receiving entity in step: same SN size, bearer and
cipher configuration, opposite `is_gnb`, `n` SDUs sent, received and delivered,
nothing pending. -/
structure paired (n : Nat) (tx rx : nr_pdcp_entity_t) : Prop where
  sn_size : rx.sn_size = 12 ∨ rx.sn_size = 18
  tx_sn_size : tx.sn_size = rx.sn_size
  tx_sn_max : tx.sn_max = 2 ^ rx.sn_size - 1
  rx_sn_max : rx.sn_max = 2 ^ rx.sn_size - 1
  rx_window : rx.window_size = 2 ^ (rx.sn_size - 1)
  tx_next : tx.tx_next = n
  rx_deliv : rx.rx_deliv = n
  rx_next : rx.rx_next = n
  rx_list : rx.rx_list = []
  timer : rx.t_reordering_start = 0
  ciphering : tx.has_ciphering = rx.has_ciphering
  key : tx.ciphering_key = rx.ciphering_key
  rb_id : tx.rb_id = rx.rb_id
  is_gnb : tx.is_gnb = !rx.is_gnb

/-- A sample keystream, for runs with ciphering. -/
def ks_sample : List Nat → Int → Nat → Nat → Nat → Nat :=
  fun key bearer count direction i =>
    (key.sum + bearer.toNat + 7 * count + 3 * direction + 5 * i + 1) % 256

/-- A sample 16-byte ciphering key. -/
def key_sample : List Nat := [1, 2, 3, 4, 5, 6, 7, 8, 9, 10, 11, 12, 13, 14, 15, 16]

/-- A freshly constructed gNB-side entity with a 12-bit SN and NEA2 ciphering
under `key_sample`. -/
def tx12_nea2 : nr_pdcp_entity_t :=
  { entity12 with
    is_gnb := true, has_ciphering := true, ciphering_algorithm := 2,
    ciphering_key := key_sample }

/-- A freshly constructed UE-side entity with a 12-bit SN and NEA2 ciphering
under `key_sample`. -/
def rx12_nea2 : nr_pdcp_entity_t :=
  { entity12 with
    is_gnb := false, has_ciphering := true, ciphering_algorithm := 2,
    ciphering_key := key_sample }

/-- The payload that `nr_pdcp_entity_recv_pdu` stores for a PDU in a given
state: the bytes after the header, deciphered when ciphering is enabled. -/
def pdu_payload (ks : List Nat → Int → Nat → Nat → Nat → Nat) (entity : nr_pdcp_entity_t)
    (buffer : List Nat) : List Nat :=
  if entity.has_ciphering then
    cipher ks entity.ciphering_key (buffer.drop (decode_header_size entity.sn_size))
      entity.rb_id (pdu_count entity buffer) (if entity.is_gnb then 0 else 1)
  else buffer.drop (decode_header_size entity.sn_size)

/-- `m` is the smallest COUNT at or above `c` that is not present in `l`. -/
def first_missing (c m : Nat) (l : List nr_pdcp_sdu_t) : Prop :=
  c ≤ m ∧ m < UINT32 ∧ (∀ s ∈ l, s.count ≠ m) ∧ ∀ k, c ≤ k → k < m → ∃ s ∈ l, s.count = k

instance (l : List nr_pdcp_sdu_t) : Decidable (ascending l) := by
  unfold ascending
  infer_instance

/-- The host time is not 0 whenever `recv_pdu` is called in the run. -/
def host_time_nonzero (ks : List Nat → Int → Nat → Nat → Nat → Nat) :
    nr_pdcp_entity_t → List call_t → Bool
  | _, [] => true
  | entity, c :: cs =>
    (match c with
      | .recv_pdu _ => decide (entity.t_current ≠ 0)
      | .set_time _ => true) &&
    (match call ks entity c with
      | none => true
      | some (e1, _) => host_time_nonzero ks e1 cs)

/-- Every pending SDU is below `rx_next`, and t-Reordering is running whenever
an SDU is pending. -/
structure pending_invariant (e : nr_pdcp_entity_t) : Prop where
  below : ∀ s ∈ e.rx_list, s.count < e.rx_next
  armed : e.rx_list ≠ [] → e.t_reordering_start ≠ 0

/-- The header decode of `nr_pdcp_entity_recv_pdu` with every read of the
buffer checked against its size: `none` when one of the bytes `buffer[0]`,
`buffer[1]` (and `buffer[2]` for an 18-bit SN) that the code reads lies at or
beyond `size`. -/
def decode_rcvd_sn_checked (sn_size : Nat) (buffer : List Nat) : Option Nat :=
  if sn_size = 12 then
    match buffer[0]?, buffer[1]? with
    | some b0, some b1 => some (((byte b0 &&& 0xf) <<< 8) ||| byte b1)
    | _, _ => none
  else
    match buffer[0]?, buffer[1]?, buffer[2]? with
    | some b0, some b1, some b2 =>
      some (((byte b0 &&& 0x3) <<< 16) ||| (byte b1 <<< 8) ||| byte b2)
    | _, _, _ => none

/-! # Theorems -/

/-! ## The pending list -/

theorem in_list_false_iff (l : List nr_pdcp_sdu_t) (c : Nat) :
    nr_pdcp_sdu_in_list l c = false ↔ ∀ s ∈ l, s.count ≠ c := by
  induction l with
  | nil => simp [nr_pdcp_sdu_in_list]
  | cons cur l ih =>
    by_cases h : cur.count = c
    · simp [nr_pdcp_sdu_in_list, h]
    · simp [nr_pdcp_sdu_in_list, h, ih]

theorem mem_list_add (l : List nr_pdcp_sdu_t) (sdu s : nr_pdcp_sdu_t) :
    s ∈ nr_pdcp_sdu_list_add l sdu ↔ s = sdu ∨ s ∈ l := by
  induction l with
  | nil => simp [nr_pdcp_sdu_list_add]
  | cons cur l ih =>
    unfold nr_pdcp_sdu_list_add
    split
    · simp
    · simp only [List.mem_cons, ih]
      tauto

theorem ascending_list_add (l : List nr_pdcp_sdu_t) (sdu : nr_pdcp_sdu_t)
    (hl : ascending l) (hn : ∀ s ∈ l, s.count ≠ sdu.count) :
    ascending (nr_pdcp_sdu_list_add l sdu) := by
  induction l with
  | nil => simp [nr_pdcp_sdu_list_add, ascending]
  | cons cur l ih =>
    unfold ascending at hl ih ⊢
    rw [List.pairwise_cons] at hl
    unfold nr_pdcp_sdu_list_add
    split
    · rename_i hgt
      rw [List.pairwise_cons, List.pairwise_cons]
      refine ⟨?_, hl⟩
      intro s hs
      rcases List.mem_cons.1 hs with h | h
      · subst h; exact hgt
      · exact lt_trans hgt (hl.1 s h)
    · rename_i hgt
      rw [List.pairwise_cons]
      refine ⟨?_, ih hl.2 fun s hs => hn s (List.mem_cons_of_mem _ hs)⟩
      intro s hs
      rcases (mem_list_add l sdu s).1 hs with h | h
      · subst h
        have := hn cur (List.mem_cons_self _ _)
        omega
      · exact hl.1 s h

theorem deliver_contiguous_append (c : Nat) (l : List nr_pdcp_sdu_t) :
    (deliver_contiguous c l).delivered ++ (deliver_contiguous c l).rest = l := by
  induction l generalizing c with
  | nil => simp [deliver_contiguous]
  | cons cur l ih =>
    unfold deliver_contiguous
    split
    · simp [ih]
    · simp

theorem deliver_below_append (r : Nat) (l : List nr_pdcp_sdu_t) :
    (deliver_below r l).1 ++ (deliver_below r l).2 = l := by
  induction l with
  | nil => simp [deliver_below]
  | cons cur l ih =>
    unfold deliver_below
    split
    · simp [ih]
    · simp

theorem deliver_below_lt (r : Nat) (l : List nr_pdcp_sdu_t) :
    ∀ s ∈ (deliver_below r l).1, s.count < r := by
  induction l with
  | nil => simp [deliver_below]
  | cons cur l ih =>
    unfold deliver_below
    split
    · intro s hs
      rcases List.mem_cons.1 hs with h | h
      · subst h; assumption
      · exact ih s h
    · simp

theorem deliver_below_ge (r : Nat) (l : List nr_pdcp_sdu_t) (hl : ascending l) :
    ∀ s ∈ (deliver_below r l).2, r ≤ s.count := by
  induction l with
  | nil => simp [deliver_below]
  | cons cur l ih =>
    unfold ascending at hl ih
    rw [List.pairwise_cons] at hl
    unfold deliver_below
    split
    · exact ih hl.2
    · rename_i hge
      intro s hs
      rcases List.mem_cons.1 hs with h | h
      · subst h; omega
      · have := hl.1 s h
        omega

/-- What the contiguous loop leaves: everything still in the list is at or
above the final `count`. -/
theorem deliver_contiguous_rest_ge (c : Nat) (l : List nr_pdcp_sdu_t) (hl : ascending l)
    (hb : ∀ s ∈ l, s.count < UINT32) (hc : ∀ s ∈ l, c ≤ s.count) :
    ∀ s ∈ (deliver_contiguous c l).rest, (deliver_contiguous c l).count ≤ s.count := by
  induction l generalizing c with
  | nil => simp [deliver_contiguous]
  | cons cur l ih =>
    unfold ascending at hl ih
    rw [List.pairwise_cons] at hl
    unfold deliver_contiguous
    split
    · rename_i heq
      apply ih _ hl.2 (fun s hs => hb s (List.mem_cons_of_mem _ hs))
      intro s hs
      have h1 := hl.1 s hs
      have h2 := hb s (List.mem_cons_of_mem _ hs)
      have h3 : (c + 1) % UINT32 = c + 1 := Nat.mod_eq_of_lt (by omega)
      omega
    · exact hc

/-- What the contiguous loop delivers: unless COUNT `0xFFFFFFFF` is among
them, COUNTs below the final `count`, which is then at or above the starting
one. -/
theorem deliver_contiguous_delivered (c : Nat) (l : List nr_pdcp_sdu_t)
    (hb : ∀ s ∈ l, s.count < UINT32)
    (hm : ∀ s ∈ (deliver_contiguous c l).delivered, s.count ≠ UINT32 - 1) :
    (∀ s ∈ (deliver_contiguous c l).delivered, s.count < (deliver_contiguous c l).count) ∧
      c ≤ (deliver_contiguous c l).count := by
  induction l generalizing c with
  | nil => simp [deliver_contiguous]
  | cons cur l ih =>
    unfold deliver_contiguous at hm ⊢
    split at hm
    · rename_i heq
      rw [if_pos heq]
      have hcur := hb cur (List.mem_cons_self _ _)
      have hne := hm cur (List.mem_cons_self _ _)
      have h3 : (c + 1) % UINT32 = c + 1 := Nat.mod_eq_of_lt (by omega)
      have ih1 := ih ((c + 1) % UINT32) (fun s hs => hb s (List.mem_cons_of_mem _ hs))
        (fun s hs => hm s (List.mem_cons_of_mem _ hs))
      rw [h3] at ih1
      refine ⟨?_, by simp only; rw [h3]; omega⟩
      intro s hs
      simp only at hs ⊢
      rw [h3] at hs ⊢
      rcases List.mem_cons.1 hs with h | h
      · subst h; omega
      · exact ih1.1 s h
    · rename_i hne
      rw [if_neg hne]
      simp

theorem deliver_contiguous_delivered_mem (c : Nat) (l : List nr_pdcp_sdu_t) :
    ∀ s ∈ (deliver_contiguous c l).delivered, s ∈ l := by
  intro s hs
  rw [← deliver_contiguous_append c l]
  exact List.mem_append_left _ hs

theorem deliver_contiguous_rest_mem (c : Nat) (l : List nr_pdcp_sdu_t) :
    ∀ s ∈ (deliver_contiguous c l).rest, s ∈ l := by
  intro s hs
  rw [← deliver_contiguous_append c l]
  exact List.mem_append_right _ hs

theorem deliver_below_fst_mem (r : Nat) (l : List nr_pdcp_sdu_t) :
    ∀ s ∈ (deliver_below r l).1, s ∈ l := by
  intro s hs
  rw [← deliver_below_append r l]
  exact List.mem_append_left _ hs

theorem deliver_below_snd_mem (r : Nat) (l : List nr_pdcp_sdu_t) :
    ∀ s ∈ (deliver_below r l).2, s ∈ l := by
  intro s hs
  rw [← deliver_below_append r l]
  exact List.mem_append_right _ hs

theorem ascending_append_left {a b l : List nr_pdcp_sdu_t} (h : a ++ b = l) (hl : ascending l) :
    ascending a := by
  subst h
  exact (List.pairwise_append.1 hl).1

theorem ascending_append_right {a b l : List nr_pdcp_sdu_t} (h : a ++ b = l) (hl : ascending l) :
    ascending b := by
  subst h
  exact (List.pairwise_append.1 hl).2.1

theorem recv_accepted_rx_list (e : nr_pdcp_entity_t) (c : Nat) (p : List Nat) :
    (recv_accepted e c p).1.rx_list =
      if c = e.rx_deliv then
        (deliver_contiguous e.rx_deliv
          (nr_pdcp_sdu_list_add e.rx_list (nr_pdcp_new_sdu c p))).rest
      else nr_pdcp_sdu_list_add e.rx_list (nr_pdcp_new_sdu c p) := by
  unfold recv_accepted
  simp only []
  split_ifs <;> rfl

theorem recv_accepted_rx_deliv (e : nr_pdcp_entity_t) (c : Nat) (p : List Nat) :
    (recv_accepted e c p).1.rx_deliv =
      if c = e.rx_deliv then
        (deliver_contiguous e.rx_deliv
          (nr_pdcp_sdu_list_add e.rx_list (nr_pdcp_new_sdu c p))).count
      else e.rx_deliv := by
  unfold recv_accepted
  simp only []
  split_ifs <;> rfl

theorem recv_accepted_delivered (e : nr_pdcp_entity_t) (c : Nat) (p : List Nat) :
    (recv_accepted e c p).2 =
      if c = e.rx_deliv then
        (deliver_contiguous e.rx_deliv
          (nr_pdcp_sdu_list_add e.rx_list (nr_pdcp_new_sdu c p))).delivered
      else [] := by
  unfold recv_accepted
  simp only []
  split_ifs <;> rfl

theorem recv_accepted_rx_next (e : nr_pdcp_entity_t) (c : Nat) (p : List Nat) :
    (recv_accepted e c p).1.rx_next =
      if c ≥ e.rx_next then (c + 1) % UINT32 else e.rx_next := by
  unfold recv_accepted
  simp only []
  split_ifs <;> rfl

/-- After `nr_pdcp_entity_recv_pdu` has run its t-Reordering management, a
running timer has `rx_deliv ≤ rx_reord`. -/
theorem recv_accepted_reord (e : nr_pdcp_entity_t) (c : Nat) (p : List Nat) :
    (recv_accepted e c p).1.t_reordering_start ≠ 0 →
      (recv_accepted e c p).1.rx_deliv ≤ (recv_accepted e c p).1.rx_reord := by
  unfold recv_accepted
  simp only []
  split_ifs <;> simp_all <;> omega

theorem recv_accepted_invariant (e : nr_pdcp_entity_t) (c : Nat) (p : List Nat)
    (hI : rx_invariant e) (hge : e.rx_deliv ≤ c) (hnot : ∀ s ∈ e.rx_list, s.count ≠ c)
    (hc : c < UINT32) :
    rx_invariant (recv_accepted e c p).1 ∧
      delivery_ok e (recv_accepted e c p).1 (recv_accepted e c p).2 := by
  have hasc : ascending (nr_pdcp_sdu_list_add e.rx_list (nr_pdcp_new_sdu c p)) :=
    ascending_list_add _ _ hI.sorted hnot
  have hab : ∀ s ∈ nr_pdcp_sdu_list_add e.rx_list (nr_pdcp_new_sdu c p), e.rx_deliv ≤ s.count := by
    intro s hs
    rcases (mem_list_add _ _ _).1 hs with h | h
    · subst h; exact hge
    · exact hI.above s h
  have hbd : ∀ s ∈ nr_pdcp_sdu_list_add e.rx_list (nr_pdcp_new_sdu c p), s.count < UINT32 := by
    intro s hs
    rcases (mem_list_add _ _ _).1 hs with h | h
    · subst h; exact hc
    · exact hI.bound s h
  refine ⟨⟨?_, ?_, ?_, recv_accepted_reord e c p⟩, ?_, ?_, ?_⟩
  · rw [recv_accepted_rx_list]
    split_ifs
    · exact ascending_append_right (deliver_contiguous_append _ _) hasc
    · exact hasc
  · rw [recv_accepted_rx_list, recv_accepted_rx_deliv]
    split_ifs
    · exact deliver_contiguous_rest_ge _ _ hasc hbd hab
    · exact hab
  · rw [recv_accepted_rx_list]
    split_ifs
    · exact fun s hs => hbd s (deliver_contiguous_rest_mem _ _ s hs)
    · exact hbd
  · rw [recv_accepted_delivered]
    split_ifs
    · exact ascending_append_left (deliver_contiguous_append _ _) hasc
    · exact List.Pairwise.nil
  · rw [recv_accepted_delivered]
    split_ifs
    · exact fun s hs => hab s (deliver_contiguous_delivered_mem _ _ s hs)
    · simp
  · rw [recv_accepted_delivered, recv_accepted_rx_deliv]
    split_ifs
    · exact fun hm => deliver_contiguous_delivered _ _ hbd hm
    · simp

theorem check_t_reordering_invariant (e : nr_pdcp_entity_t) (hI : rx_invariant e) :
    rx_invariant (check_t_reordering e).1 ∧
      delivery_ok e (check_t_reordering e).1 (check_t_reordering e).2 := by
  unfold check_t_reordering
  split
  · exact ⟨hI, List.Pairwise.nil, by simp, by simp⟩
  · rename_i hexp
    have harm : e.t_reordering_start ≠ 0 := fun h => hexp (Or.inl h)
    have hle := hI.reord harm
    have happ := deliver_below_append e.rx_reord e.rx_list
    have hasc2 : ascending (deliver_below e.rx_reord e.rx_list).2 :=
      ascending_append_right happ hI.sorted
    have hbd2 : ∀ s ∈ (deliver_below e.rx_reord e.rx_list).2, s.count < UINT32 :=
      fun s hs => hI.bound s (deliver_below_snd_mem _ _ s hs)
    have hge2 := deliver_below_ge e.rx_reord e.rx_list hI.sorted
    have happ2 := deliver_contiguous_append e.rx_reord (deliver_below e.rx_reord e.rx_list).2
    have hdel : ascending ((deliver_below e.rx_reord e.rx_list).1 ++
        (deliver_contiguous e.rx_reord (deliver_below e.rx_reord e.rx_list).2).delivered) := by
      have h := hI.sorted
      rw [← happ, ← happ2, ← List.append_assoc] at h
      exact ascending_append_left rfl h
    have hrest := deliver_contiguous_rest_ge e.rx_reord _ hasc2 hbd2 hge2
    refine ⟨?_, ?_⟩
    · simp only []
      split_ifs
      · refine ⟨ascending_append_right happ2 hasc2, hrest, ?_, ?_⟩
        · exact fun s hs => hbd2 s (deliver_contiguous_rest_mem _ _ s hs)
        · intro _
          simp only []
          omega
      · refine ⟨ascending_append_right happ2 hasc2, hrest, ?_, ?_⟩
        · exact fun s hs => hbd2 s (deliver_contiguous_rest_mem _ _ s hs)
        · simp
    · have key : delivery_ok e
          { e with t_reordering_start := 0,
                   rx_list := (deliver_contiguous e.rx_reord (deliver_below e.rx_reord e.rx_list).2).rest,
                   rx_size := e.rx_size - sdu_bytes (deliver_below e.rx_reord e.rx_list).1
                     - sdu_bytes (deliver_contiguous e.rx_reord (deliver_below e.rx_reord e.rx_list).2).delivered,
                   rx_deliv := (deliver_contiguous e.rx_reord (deliver_below e.rx_reord e.rx_list).2).count }
          ((deliver_below e.rx_reord e.rx_list).1 ++
            (deliver_contiguous e.rx_reord (deliver_below e.rx_reord e.rx_list).2).delivered) := by
        refine ⟨hdel, ?_, ?_⟩
        · intro s hs
          rcases List.mem_append.1 hs with h | h
          · exact hI.above s (deliver_below_fst_mem _ _ s h)
          · exact hI.above s (deliver_below_snd_mem _ _ s (deliver_contiguous_delivered_mem _ _ s h))
        · intro hm
          have h2 := deliver_contiguous_delivered e.rx_reord _ hbd2
            (fun s hs => hm s (List.mem_append_right _ hs))
          refine ⟨?_, by simp only []; omega⟩
          intro s hs
          simp only []
          rcases List.mem_append.1 hs with h | h
          · have := deliver_below_lt _ _ s h
            omega
          · exact h2.1 s h
      simp only []
      split_ifs
      · exact key
      · exact key

/-! ## Invariants of a run -/

theorem decode_rcvd_sn_lt (sn_size : Nat) (buffer : List Nat) :
    decode_rcvd_sn sn_size buffer < 2 ^ 32 := by
  have hb : ∀ b, byte b < 2 ^ 8 := fun b => Nat.mod_lt _ (by norm_num)
  unfold decode_rcvd_sn
  split
  · apply Nat.or_lt_two_pow
    · have h := @Nat.and_le_right (byte (buffer.getD 0 0)) 0xf
      rw [Nat.shiftLeft_eq]
      omega
    · exact lt_of_lt_of_le (hb _) (by norm_num)
  · apply Nat.or_lt_two_pow
    · apply Nat.or_lt_two_pow
      · have h := @Nat.and_le_right (byte (buffer.getD 0 0)) 0x3
        rw [Nat.shiftLeft_eq]
        omega
      · have h := hb (buffer.getD 1 0)
        rw [Nat.shiftLeft_eq]
        omega
    · exact lt_of_lt_of_le (hb _) (by norm_num)

theorem infer_rcvd_count_lt (e : nr_pdcp_entity_t) (sn : Nat) (h : sn < 2 ^ 32) :
    infer_rcvd_count e sn < UINT32 := by
  unfold infer_rcvd_count
  simp only []
  exact Nat.or_lt_two_pow (Nat.mod_lt _ (by norm_num [UINT32])) h

theorem pdu_count_lt (e : nr_pdcp_entity_t) (buffer : List Nat) : pdu_count e buffer < UINT32 :=
  infer_rcvd_count_lt e _ (decode_rcvd_sn_lt _ _)

/-- The two results of `nr_pdcp_entity_recv_pdu` that are not `exit(1)`: the
PDU is dropped with the entity untouched, or it is accepted with its inferred
COUNT, which is at or above `rx_deliv` and not in `rx_list`. -/
theorem recv_pdu_cases (ks : List Nat → Int → Nat → Nat → Nat → Nat) (e e1 : nr_pdcp_entity_t)
    (buffer : List Nat) (d : List nr_pdcp_sdu_t)
    (h : nr_pdcp_entity_recv_pdu ks e buffer = some (e1, d)) :
    (e1 = e ∧ d = []) ∨
    (e.rx_deliv ≤ pdu_count e buffer ∧ (∀ s ∈ e.rx_list, s.count ≠ pdu_count e buffer) ∧
      ∃ p, (e1, d) = recv_accepted e (pdu_count e buffer) p) := by
  unfold nr_pdcp_entity_recv_pdu at h
  simp only [] at h
  split_ifs at h with h1 h2 h3 h4
  iterate 3 (left; simpa using h.symm)
  all_goals
    right
    have h5 : ¬ pdu_count e buffer < e.rx_deliv := fun hh => h4 (Or.inl hh)
    have h6 : nr_pdcp_sdu_in_list e.rx_list (pdu_count e buffer) = false := by
      cases hh : nr_pdcp_sdu_in_list e.rx_list (pdu_count e buffer)
      · rfl
      · exact absurd (Or.inr hh) h4
    exact ⟨by omega, (in_list_false_iff _ _).1 h6, _, (Option.some.inj h).symm⟩

theorem call_invariant (ks : List Nat → Int → Nat → Nat → Nat → Nat) (e e1 : nr_pdcp_entity_t)
    (c : call_t) (d : List nr_pdcp_sdu_t) (hI : rx_invariant e)
    (h : call ks e c = some (e1, d)) : rx_invariant e1 ∧ delivery_ok e e1 d := by
  cases c with
  | recv_pdu buffer =>
    rcases recv_pdu_cases ks e e1 buffer d h with ⟨h1, h2⟩ | ⟨h1, h2, p, h3⟩
    · subst h1 h2
      exact ⟨hI, List.Pairwise.nil, by simp, by simp⟩
    · have := recv_accepted_invariant e (pdu_count e buffer) p hI h1 h2 (pdu_count_lt e buffer)
      rw [← h3] at this
      exact this
  | set_time now =>
    have h1 : (e1, d) = check_t_reordering { e with t_current := now % UINT64 } :=
      (Option.some.inj h).symm
    have := check_t_reordering_invariant { e with t_current := now % UINT64 }
      ⟨hI.sorted, hI.above, hI.bound, hI.reord⟩
    rw [← h1] at this
    exact this

theorem run_cons (ks : List Nat → Int → Nat → Nat → Nat → Nat) (e e1 : nr_pdcp_entity_t)
    (c : call_t) (cs : List call_t) (d : List nr_pdcp_sdu_t) (h : call ks e c = some (e1, d)) :
    run ks e (c :: cs) = ((run ks e1 cs).1, d ++ (run ks e1 cs).2) := by
  simp [run, h]

theorem run_cons_none (ks : List Nat → Int → Nat → Nat → Nat → Nat) (e : nr_pdcp_entity_t)
    (c : call_t) (cs : List call_t) (h : call ks e c = none) :
    run ks e (c :: cs) = (none, []) := by
  simp [run, h]

theorem run_invariant (ks : List Nat → Int → Nat → Nat → Nat → Nat) (cs : List call_t) :
    ∀ (e e1 : nr_pdcp_entity_t), rx_invariant e → (run ks e cs).1 = some e1 → rx_invariant e1 := by
  induction cs with
  | nil =>
    intro e e1 hI h
    simp [run] at h
    exact h ▸ hI
  | cons c cs ih =>
    intro e e1 hI h
    cases hc : call ks e c with
    | none => rw [run_cons_none ks e c cs hc] at h; simp at h
    | some r =>
      obtain ⟨e2, d⟩ := r
      rw [run_cons ks e e2 c cs d hc] at h
      exact ih e2 e1 (call_invariant ks e e2 c d hI hc).1 h

theorem run_delivery (ks : List Nat → Int → Nat → Nat → Nat → Nat) (cs : List call_t) :
    ∀ (e : nr_pdcp_entity_t), rx_invariant e →
      (∀ s ∈ (run ks e cs).2, s.count ≠ UINT32 - 1) →
      ascending (run ks e cs).2 ∧ ∀ s ∈ (run ks e cs).2, e.rx_deliv ≤ s.count := by
  induction cs with
  | nil =>
    intro e _ _
    simp [run, ascending]
  | cons c cs ih =>
    intro e hI hm
    cases hc : call ks e c with
    | none => rw [run_cons_none ks e c cs hc]; simp [ascending]
    | some r =>
      obtain ⟨e2, d⟩ := r
      rw [run_cons ks e e2 c cs d hc] at hm ⊢
      obtain ⟨hI2, hd1, hd2, hd3⟩ := call_invariant ks e e2 c d hI hc
      have ih2 := ih e2 hI2 (fun s hs => hm s (List.mem_append_right _ hs))
      have hd4 := hd3 (fun s hs => hm s (List.mem_append_left _ hs))
      refine ⟨?_, ?_⟩
      · unfold ascending
        rw [List.pairwise_append]
        refine ⟨hd1, ih2.1, ?_⟩
        intro a ha b hb
        have := hd4.1 a ha
        have := ih2.2 b hb
        omega
      · intro s hs
        rcases List.mem_append.1 hs with h | h
        · exact hd2 s h
        · have := ih2.2 s h
          omega

theorem initial_invariant (e0 : nr_pdcp_entity_t) (h : is_initial e0) :
    rx_invariant e0 ∧ e0.rx_next = 0 ∧ e0.rx_reord = 0 ∧ e0.t_reordering_start = 0 := by
  obtain ⟨g, rb, sn, t, dt, ca, ia, ck, ik, _, h⟩ := h
  unfold new_nr_pdcp_entity at h
  simp only [] at h
  split_ifs at h <;>
  · have h := (Option.some.inj h).symm
    subst h
    exact ⟨⟨List.Pairwise.nil, by simp, by simp, by simp⟩, rfl, rfl, rfl⟩

/-! ## t-Reordering window -/

theorem recv_accepted_reord_next (e : nr_pdcp_entity_t) (c : Nat) (p : List Nat)
    (hc : c < UINT32 - 1) (h : e.t_reordering_start ≠ 0 → e.rx_reord ≤ e.rx_next) :
    (recv_accepted e c p).1.t_reordering_start ≠ 0 →
      (recv_accepted e c p).1.rx_reord ≤ (recv_accepted e c p).1.rx_next := by
  have h3 : (c + 1) % UINT32 = c + 1 := Nat.mod_eq_of_lt (by omega)
  unfold recv_accepted
  simp only [h3]
  split_ifs <;> simp_all <;> omega

theorem check_t_reordering_reord_next (e : nr_pdcp_entity_t)
    (h : e.t_reordering_start ≠ 0 → e.rx_reord ≤ e.rx_next) :
    (check_t_reordering e).1.t_reordering_start ≠ 0 →
      (check_t_reordering e).1.rx_reord ≤ (check_t_reordering e).1.rx_next := by
  unfold check_t_reordering
  simp only []
  split_ifs <;> simp_all

theorem run_reord_next (ks : List Nat → Int → Nat → Nat → Nat → Nat) (cs : List call_t) :
    ∀ (e e1 : nr_pdcp_entity_t), (e.t_reordering_start ≠ 0 → e.rx_reord ≤ e.rx_next) →
      no_max_count ks e cs = true → (run ks e cs).1 = some e1 →
      (e1.t_reordering_start ≠ 0 → e1.rx_reord ≤ e1.rx_next) := by
  induction cs with
  | nil =>
    intro e e1 hI _ h
    simp [run] at h
    exact h ▸ hI
  | cons c cs ih =>
    intro e e1 hI hn h
    cases hc : call ks e c with
    | none => rw [run_cons_none ks e c cs hc] at h; simp at h
    | some r =>
      obtain ⟨e2, d⟩ := r
      rw [run_cons ks e e2 c cs d hc] at h
      simp only [no_max_count, hc, Bool.and_eq_true] at hn
      refine ih e2 e1 ?_ hn.2 h
      cases c with
      | recv_pdu buffer =>
        rcases recv_pdu_cases ks e e2 buffer d hc with ⟨h1, _⟩ | ⟨_, _, p, h3⟩
        · subst h1; exact hI
        · have hne : pdu_count e buffer ≠ UINT32 - 1 := by simpa using hn.1
          have hlt := pdu_count_lt e buffer
          have := recv_accepted_reord_next e (pdu_count e buffer) p (by omega) hI
          rw [← h3] at this
          exact this
      | set_time now =>
        have h1 : (e2, d) = check_t_reordering { e with t_current := now % UINT64 } :=
          (Option.some.inj hc).symm
        have := check_t_reordering_reord_next { e with t_current := now % UINT64 } hI
        rw [← h1] at this
        exact this

/-! ## The claims -/

/-- C1 (amended): for every entity starting in the initial state (`sn_size` 12
or 18) and every finite sequence of `recv_pdu` and `set_time` calls in which no
SDU with COUNT `0xFFFFFFFF` is delivered, the sequence of COUNTs of the SDUs
passed to `deliver_sdu`, taken over the whole run, is strictly increasing; in
particular no COUNT is delivered more than once. -/
theorem C1_delivered_counts_strictly_increasing
    (ks : List Nat → Int → Nat → Nat → Nat → Nat) (e0 : nr_pdcp_entity_t) (cs : List call_t)
    (h0 : is_initial e0) (hm : ∀ s ∈ (run ks e0 cs).2, s.count ≠ UINT32 - 1) :
    ((run ks e0 cs).2.map nr_pdcp_sdu_t.count).Pairwise (fun a b => a < b) ∧
      ((run ks e0 cs).2.map nr_pdcp_sdu_t.count).Nodup := by
  have h := (run_delivery ks cs e0 (initial_invariant e0 h0).1 hm).1
  have h1 : ((run ks e0 cs).2.map nr_pdcp_sdu_t.count).Pairwise (fun a b => a < b) :=
    List.pairwise_map.2 h
  exact ⟨h1, h1.imp fun hab => Nat.ne_of_lt hab⟩

theorem entity12_initial : is_initial entity12 :=
  ⟨false, 1, 12, 10, 0, 0, 0, none, none, Or.inl rfl, by decide⟩

/-- Witness of C1 (amended): out-of-order arrival, fill, and two timer
expiries deliver the COUNTs 0, 1, 3. -/
theorem C1_delivered_counts_strictly_increasing_witness :
    is_initial entity12 ∧
    (∀ s ∈ (run ks0 entity12 [.set_time 1, .recv_pdu (pdu12 1 [7]), .recv_pdu (pdu12 0 [8]),
        .recv_pdu (pdu12 3 [9]), .set_time 12, .set_time 30]).2, s.count ≠ UINT32 - 1) ∧
    (run ks0 entity12 [.set_time 1, .recv_pdu (pdu12 1 [7]), .recv_pdu (pdu12 0 [8]),
        .recv_pdu (pdu12 3 [9]), .set_time 12, .set_time 30]).2.map nr_pdcp_sdu_t.count
      = [0, 1, 3] ∧
    ((run ks0 entity12 [.set_time 1, .recv_pdu (pdu12 1 [7]), .recv_pdu (pdu12 0 [8]),
        .recv_pdu (pdu12 3 [9]), .set_time 12, .set_time 30]).2.map
          nr_pdcp_sdu_t.count).Pairwise (fun a b => a < b) ∧
    ((run ks0 entity12 [.set_time 1, .recv_pdu (pdu12 1 [7]), .recv_pdu (pdu12 0 [8]),
        .recv_pdu (pdu12 3 [9]), .set_time 12, .set_time 30]).2.map
          nr_pdcp_sdu_t.count).Nodup :=
  ⟨entity12_initial, by decide, by decide,
    C1_delivered_counts_strictly_increasing ks0 entity12 _ entity12_initial (by decide)⟩

/-- C1 as stated fails: from the initial state, SN 0 is delivered, SN 4094 and
SN 4095 are inferred the COUNTs `0xFFFFFFFE` and `0xFFFFFFFF` and are delivered
on expiry, `rx_deliv` wraps to 0, and SN 0 is delivered again with COUNT 0. -/
theorem C1_counterexample :
    is_initial entity12 ∧
    (run ks0 entity12 [.set_time 1, .recv_pdu (pdu12 0 [7]), .recv_pdu (pdu12 4094 [8]),
        .recv_pdu (pdu12 4095 [9]), .set_time 12, .recv_pdu (pdu12 0 [10])]).2
      = [⟨0, [7]⟩, ⟨4294967294, [8]⟩, ⟨4294967295, [9]⟩, ⟨0, [10]⟩] ∧
    ¬ ((run ks0 entity12 [.set_time 1, .recv_pdu (pdu12 0 [7]), .recv_pdu (pdu12 4094 [8]),
        .recv_pdu (pdu12 4095 [9]), .set_time 12, .recv_pdu (pdu12 0 [10])]).2.map
          nr_pdcp_sdu_t.count).Pairwise (fun a b => a < b) :=
  ⟨entity12_initial, by decide, by decide⟩

/-- C2, the code at the failing input. With `rx_deliv = 0x0FFF` the SN 0 is
inferred the COUNT `0x1000`. But once `rx_deliv = 0x1000` (reached here from the
initial state), `rx_deliv_hfn = (0x1000 >> 12) & ~0xFFF = 0`, the SN 0 is
inferred the COUNT 0, outside the window, and the PDU is dropped with
`rx_deliv` still `0x1000`. -/
theorem C2_code_at_failing_input :
    infer_rcvd_count { entity12 with rx_next := 0x0FFF, rx_deliv := 0x0FFF } 0 = 0x1000 ∧
    is_initial entity12 ∧
    (run ks0 entity12 [.set_time 1, .recv_pdu (pdu12 2047 [1]), .set_time 12,
        .recv_pdu (pdu12 0x0FFF [2]), .set_time 30])
      = (some { entity12 with
          rx_next := 0x1000, rx_deliv := 0x1000, rx_reord := 0x1000, t_current := 30 },
          [⟨2047, [1]⟩, ⟨0x0FFF, [2]⟩]) ∧
    infer_rcvd_count { entity12 with
        rx_next := 0x1000, rx_deliv := 0x1000, rx_reord := 0x1000, t_current := 30 } 0 = 0 ∧
    ¬ (0x1000 - 2048 ≤ infer_rcvd_count { entity12 with
        rx_next := 0x1000, rx_deliv := 0x1000, rx_reord := 0x1000, t_current := 30 } 0) ∧
    nr_pdcp_entity_recv_pdu ks0 { entity12 with
        rx_next := 0x1000, rx_deliv := 0x1000, rx_reord := 0x1000, t_current := 30 }
        (pdu12 0 [3])
      = some ({ entity12 with
          rx_next := 0x1000, rx_deliv := 0x1000, rx_reord := 0x1000, t_current := 30 }, []) :=
  ⟨by decide, entity12_initial, by decide, by decide, by decide, by decide⟩

/-- C4 (amended): in every state reachable from the initial state by a
sequence of `recv_pdu` and `set_time` calls in which no PDU is inferred the
COUNT `0xFFFFFFFF`, if t-Reordering is armed (`t_reordering_start != 0`) then
`rx_deliv <= rx_reord` and `rx_reord <= rx_next`. -/
theorem C4_timer_window (ks : List Nat → Int → Nat → Nat → Nat → Nat)
    (e0 e : nr_pdcp_entity_t) (cs : List call_t) (h0 : is_initial e0)
    (hr : (run ks e0 cs).1 = some e) (hn : no_max_count ks e0 cs = true)
    (harm : e.t_reordering_start ≠ 0) :
    e.rx_deliv ≤ e.rx_reord ∧ e.rx_reord ≤ e.rx_next := by
  have hi := initial_invariant e0 h0
  refine ⟨(run_invariant ks cs e0 e hi.1 hr).reord harm, ?_⟩
  exact run_reord_next ks cs e0 e (fun h => absurd hi.2.2.2 h) hn hr harm

/-- Witness of C4 (amended): SN 1 then SN 3 at time 1 leave the timer armed
with `rx_deliv = 0`, `rx_reord = 2`, `rx_next = 4`. -/
theorem C4_timer_window_witness :
    is_initial entity12 ∧
    (run ks0 entity12 [.set_time 1, .recv_pdu (pdu12 1 [7]), .recv_pdu (pdu12 3 [9])]).1
      = some { entity12 with
          rx_next := 4, rx_reord := 2, t_current := 1, t_reordering_start := 1,
          rx_list := [⟨1, [7]⟩, ⟨3, [9]⟩], rx_size := 2 } ∧
    no_max_count ks0 entity12
      [.set_time 1, .recv_pdu (pdu12 1 [7]), .recv_pdu (pdu12 3 [9])] = true ∧
    (0 ≤ 2 ∧ 2 ≤ 4) :=
  ⟨entity12_initial, by decide, by decide,
    C4_timer_window ks0 entity12
      { entity12 with
          rx_next := 4, rx_reord := 2, t_current := 1, t_reordering_start := 1,
          rx_list := [⟨1, [7]⟩, ⟨3, [9]⟩], rx_size := 2 }
      [.set_time 1, .recv_pdu (pdu12 1 [7]), .recv_pdu (pdu12 3 [9])]
      entity12_initial (by decide) (by decide) (by decide)⟩

/-- C4 as stated fails: from the initial state at time 1, SN 4094 arms the
timer with `rx_reord = 0xFFFFFFFF`, then SN 4095 is inferred COUNT `0xFFFFFFFF`
and `rx_next` wraps to 0 while the timer stays armed. -/
theorem C4_counterexample :
    is_initial entity12 ∧
    (run ks0 entity12 [.set_time 1, .recv_pdu (pdu12 4094 [8]), .recv_pdu (pdu12 4095 [9])]).1.map
        (fun e => (e.t_reordering_start, e.rx_deliv, e.rx_reord, e.rx_next))
      = some (1, 0, 4294967295, 0) ∧
    ¬ ∀ (e0 e : nr_pdcp_entity_t) (cs : List call_t), is_initial e0 →
        (run ks0 e0 cs).1 = some e → e.t_reordering_start ≠ 0 →
        e.rx_deliv ≤ e.rx_reord ∧ e.rx_reord ≤ e.rx_next := by
  refine ⟨entity12_initial, by decide, fun h => ?_⟩
  have h1 := h entity12
    { entity12 with
        rx_next := 0, rx_reord := 4294967295, t_current := 1, t_reordering_start := 1,
        rx_list := [⟨4294967294, [8]⟩, ⟨4294967295, [9]⟩], rx_size := 2 }
    [.set_time 1, .recv_pdu (pdu12 4094 [8]), .recv_pdu (pdu12 4095 [9])]
    entity12_initial (by decide) (by decide)
  exact absurd h1.2 (by decide)

/-- C5: in every state reachable from the initial state by any sequence of
`recv_pdu` and `set_time` calls, every COUNT `c` stored in `rx_list` satisfies
`c >= rx_deliv`. -/
theorem C5_no_queued_sdu_below_rx_deliv (ks : List Nat → Int → Nat → Nat → Nat → Nat)
    (e0 e : nr_pdcp_entity_t) (cs : List call_t) (h0 : is_initial e0)
    (hr : (run ks e0 cs).1 = some e) :
    ∀ s ∈ e.rx_list, e.rx_deliv ≤ s.count :=
  (run_invariant ks cs e0 e (initial_invariant e0 h0).1 hr).above

/-- Witness of C5: after SN 0, SN 2 and SN 5 the list holds the COUNTs 2 and 5
and `rx_deliv = 1`. -/
theorem C5_no_queued_sdu_below_rx_deliv_witness :
    is_initial entity12 ∧
    (run ks0 entity12 [.set_time 1, .recv_pdu (pdu12 0 [6]), .recv_pdu (pdu12 5 [7]),
        .recv_pdu (pdu12 2 [9])]).1
      = some { entity12 with
          rx_next := 6, rx_deliv := 1, rx_reord := 6, t_current := 1, t_reordering_start := 1,
          rx_list := [⟨2, [9]⟩, ⟨5, [7]⟩], rx_size := 2 } ∧
    ∀ s ∈ ([⟨2, [9]⟩, ⟨5, [7]⟩] : List nr_pdcp_sdu_t), 1 ≤ s.count :=
  ⟨entity12_initial, by decide,
    C5_no_queued_sdu_below_rx_deliv ks0 entity12
      { entity12 with
          rx_next := 6, rx_deliv := 1, rx_reord := 6, t_current := 1, t_reordering_start := 1,
          rx_list := [⟨2, [9]⟩, ⟨5, [7]⟩], rx_size := 2 }
      [.set_time 1, .recv_pdu (pdu12 0 [6]), .recv_pdu (pdu12 5 [7]), .recv_pdu (pdu12 2 [9])]
      entity12_initial (by decide)⟩

/-- C6: in every state reachable from the initial state by any sequence of
`recv_pdu` and `set_time` calls, the COUNTs in `rx_list` are strictly ascending
from head to tail, hence contain no duplicate. -/
theorem C6_rx_list_strictly_ascending (ks : List Nat → Int → Nat → Nat → Nat → Nat)
    (e0 e : nr_pdcp_entity_t) (cs : List call_t) (h0 : is_initial e0)
    (hr : (run ks e0 cs).1 = some e) :
    (e.rx_list.map nr_pdcp_sdu_t.count).Pairwise (fun a b => a < b) ∧
      (e.rx_list.map nr_pdcp_sdu_t.count).Nodup := by
  have h := (run_invariant ks cs e0 e (initial_invariant e0 h0).1 hr).sorted
  have h1 : (e.rx_list.map nr_pdcp_sdu_t.count).Pairwise (fun a b => a < b) :=
    List.pairwise_map.2 h
  exact ⟨h1, h1.imp fun hab => Nat.ne_of_lt hab⟩

/-- Witness of C6: SN 5, SN 2, SN 2 again and SN 3 leave the COUNTs 2, 3, 5. -/
theorem C6_rx_list_strictly_ascending_witness :
    is_initial entity12 ∧
    (run ks0 entity12 [.set_time 1, .recv_pdu (pdu12 5 [7]), .recv_pdu (pdu12 2 [9]),
        .recv_pdu (pdu12 2 [4]), .recv_pdu (pdu12 3 [1])]).1
      = some { entity12 with
          rx_next := 6, rx_reord := 6, t_current := 1, t_reordering_start := 1,
          rx_list := [⟨2, [9]⟩, ⟨3, [1]⟩, ⟨5, [7]⟩], rx_size := 3 } ∧
    (([⟨2, [9]⟩, ⟨3, [1]⟩, ⟨5, [7]⟩] : List nr_pdcp_sdu_t).map
        nr_pdcp_sdu_t.count).Pairwise (fun a b => a < b) ∧
    (([⟨2, [9]⟩, ⟨3, [1]⟩, ⟨5, [7]⟩] : List nr_pdcp_sdu_t).map nr_pdcp_sdu_t.count).Nodup :=
  ⟨entity12_initial, by decide,
    C6_rx_list_strictly_ascending ks0 entity12
      { entity12 with
          rx_next := 6, rx_reord := 6, t_current := 1, t_reordering_start := 1,
          rx_list := [⟨2, [9]⟩, ⟨3, [1]⟩, ⟨5, [7]⟩], rx_size := 3 }
      [.set_time 1, .recv_pdu (pdu12 5 [7]), .recv_pdu (pdu12 2 [9]),
        .recv_pdu (pdu12 2 [4]), .recv_pdu (pdu12 3 [1])]
      entity12_initial (by decide)⟩

/-- C7: for every entity state and every well-formed data PDU whose inferred
`rcvd_count` is `< rx_deliv` or is already present in `rx_list`, `recv_pdu`
calls `deliver_sdu` zero times and leaves every field of the entity state
unchanged. -/
theorem C7_stale_or_duplicate_dropped (ks : List Nat → Int → Nat → Nat → Nat → Nat)
    (e : nr_pdcp_entity_t) (buffer : List Nat) (hwf : well_formed_data_pdu e.sn_size buffer)
    (h : pdu_count e buffer < e.rx_deliv ∨ ∃ s ∈ e.rx_list, s.count = pdu_count e buffer) :
    nr_pdcp_entity_recv_pdu ks e buffer = some (e, []) := by
  obtain ⟨h1, h2, h3⟩ := hwf
  have h4 : pdu_count e buffer < e.rx_deliv ∨
      nr_pdcp_sdu_in_list e.rx_list (pdu_count e buffer) = true := by
    rcases h with h | ⟨s, hs, hc⟩
    · exact Or.inl h
    · right
      cases hh : nr_pdcp_sdu_in_list e.rx_list (pdu_count e buffer)
      · exact absurd hc ((in_list_false_iff _ _).1 hh s hs)
      · rfl
  unfold nr_pdcp_entity_recv_pdu
  simp only []
  rw [if_neg (by omega), if_neg h2, if_neg (by omega)]
  exact if_pos h4

/-- Witness of C7: with `rx_deliv = 100` a PDU with SN 50 is dropped and the
state is unchanged; and from the initial state two arrivals with SN 0 give
exactly one delivery and `rx_deliv = 1`, the second arrival being dropped. -/
theorem C7_stale_or_duplicate_dropped_witness :
    (well_formed_data_pdu 12 (pdu12 50 [7]) ∧
      pdu_count { entity12 with rx_next := 100, rx_deliv := 100 } (pdu12 50 [7]) = 50 ∧
      nr_pdcp_entity_recv_pdu ks0 { entity12 with rx_next := 100, rx_deliv := 100 }
          (pdu12 50 [7])
        = some ({ entity12 with rx_next := 100, rx_deliv := 100 }, [])) ∧
    (nr_pdcp_entity_recv_pdu ks0 entity12 (pdu12 0 [7])
        = some ({ entity12 with rx_next := 1, rx_deliv := 1 }, [⟨0, [7]⟩]) ∧
      nr_pdcp_entity_recv_pdu ks0 { entity12 with rx_next := 1, rx_deliv := 1 } (pdu12 0 [7])
        = some ({ entity12 with rx_next := 1, rx_deliv := 1 }, []) ∧
      run ks0 entity12 [.recv_pdu (pdu12 0 [7]), .recv_pdu (pdu12 0 [7])]
        = (some { entity12 with rx_next := 1, rx_deliv := 1 }, [⟨0, [7]⟩])) :=
  ⟨⟨by decide, by decide,
      C7_stale_or_duplicate_dropped ks0 { entity12 with rx_next := 100, rx_deliv := 100 }
        (pdu12 50 [7]) (by decide) (Or.inl (by decide))⟩,
    by decide,
    C7_stale_or_duplicate_dropped ks0 { entity12 with rx_next := 1, rx_deliv := 1 }
      (pdu12 0 [7]) (by decide) (Or.inl (by decide)),
    by decide⟩

/-! ## Timer expiry -/

theorem recv_pdu_accepted (ks : List Nat → Int → Nat → Nat → Nat → Nat) (e : nr_pdcp_entity_t)
    (buffer : List Nat) (hwf : well_formed_data_pdu e.sn_size buffer)
    (hge : e.rx_deliv ≤ pdu_count e buffer)
    (hnew : ∀ s ∈ e.rx_list, s.count ≠ pdu_count e buffer) :
    ∃ p, nr_pdcp_entity_recv_pdu ks e buffer = some (recv_accepted e (pdu_count e buffer) p) := by
  obtain ⟨h1, h2, h3⟩ := hwf
  have h4 : ¬ (pdu_count e buffer < e.rx_deliv ∨
      nr_pdcp_sdu_in_list e.rx_list (pdu_count e buffer) = true) := by
    rintro (h | h)
    · omega
    · rw [(in_list_false_iff _ _).2 hnew] at h
      exact Bool.false_ne_true h
  unfold nr_pdcp_entity_recv_pdu
  simp only []
  rw [if_neg (by omega), if_neg h2, if_neg (by omega)]
  exact ⟨_, if_neg h4⟩

/-- A PDU accepted beyond `rx_deliv` while t-Reordering is not running: nothing
is delivered, and if `rx_deliv < rx_next` afterwards the timer is armed at
`t_current` with `rx_reord = rx_next`. -/
theorem recv_accepted_arms (e : nr_pdcp_entity_t) (c : Nat) (p : List Nat)
    (hne : c ≠ e.rx_deliv) (hoff : e.t_reordering_start = 0)
    (hlt : (recv_accepted e c p).1.rx_deliv < (recv_accepted e c p).1.rx_next) :
    (recv_accepted e c p).2 = [] ∧
    (recv_accepted e c p).1.rx_list = nr_pdcp_sdu_list_add e.rx_list (nr_pdcp_new_sdu c p) ∧
    (recv_accepted e c p).1.rx_reord = (recv_accepted e c p).1.rx_next ∧
    (recv_accepted e c p).1.t_reordering_start = e.t_current ∧
    (recv_accepted e c p).1.t_current = e.t_current ∧
    (recv_accepted e c p).1.t_reordering = e.t_reordering := by
  revert hlt
  unfold recv_accepted
  simp only [if_neg hne, hoff]
  split_ifs <;> simp_all

theorem deliver_below_mem_of_lt (r : Nat) (l : List nr_pdcp_sdu_t) (hl : ascending l)
    (s : nr_pdcp_sdu_t) (hs : s ∈ l) (hlt : s.count < r) : s ∈ (deliver_below r l).1 := by
  rw [← deliver_below_append r l] at hs
  rcases List.mem_append.1 hs with h | h
  · exact h
  · have := deliver_below_ge r l hl s h
    omega

/-- The expiry branch of `check_t_reordering`: what is delivered and where
`rx_deliv` ends. -/
theorem check_t_reordering_expired (e : nr_pdcp_entity_t) (harm : e.t_reordering_start ≠ 0)
    (hexp : ¬ (e.t_current : Int)
      ≤ ((e.t_reordering_start : Int) + e.t_reordering) % (UINT64 : Int)) :
    (check_t_reordering e).2 =
      (deliver_below e.rx_reord e.rx_list).1 ++
        (deliver_contiguous e.rx_reord (deliver_below e.rx_reord e.rx_list).2).delivered ∧
    (check_t_reordering e).1.rx_deliv =
      (deliver_contiguous e.rx_reord (deliver_below e.rx_reord e.rx_list).2).count := by
  have h : ¬ (e.t_reordering_start = 0 ∨ (e.t_current : Int)
      ≤ ((e.t_reordering_start : Int) + e.t_reordering) % (UINT64 : Int)) := by
    rintro (h | h)
    · exact harm h
    · exact hexp h
  unfold check_t_reordering
  rw [if_neg h]
  simp only []
  split_ifs <;> simp

/-- C8 (amended): in every state reachable from the initial state in which
t-Reordering is not running and the host time `t0` is not 0, whenever
`recv_pdu` buffers a PDU out of order (so that `rx_deliv < rx_next`
afterwards), it delivers nothing and arms t-Reordering at `t0` with
`rx_reord = rx_next`, and a `set_time(now)` that follows with
`t0 + t_reordering < now` (`t_reordering >= 0`) delivers the buffered SDU;
`rx_deliv` is then past its COUNT, provided COUNT `0xFFFFFFFF` is not
pending. -/
theorem C8_timer_expiry_delivers_buffered_sdu (ks : List Nat → Int → Nat → Nat → Nat → Nat)
    (e0 e e1 : nr_pdcp_entity_t) (cs : List call_t) (buffer : List Nat)
    (d1 : List nr_pdcp_sdu_t) (now : Nat)
    (h0 : is_initial e0) (hr : (run ks e0 cs).1 = some e)
    (hoff : e.t_reordering_start = 0) (ht0 : e.t_current ≠ 0) (hT : 0 ≤ e.t_reordering)
    (hwf : well_formed_data_pdu e.sn_size buffer)
    (hbuf : e.rx_deliv < pdu_count e buffer)
    (hnew : ∀ s ∈ e.rx_list, s.count ≠ pdu_count e buffer)
    (h1 : nr_pdcp_entity_recv_pdu ks e buffer = some (e1, d1))
    (hlt : e1.rx_deliv < e1.rx_next)
    (hnow : (e.t_current : Int) + e.t_reordering < (now : Int)) (hnow64 : now < UINT64) :
    d1 = [] ∧ e1.t_reordering_start = e.t_current ∧ e1.rx_reord = e1.rx_next ∧
    (∃ s ∈ e1.rx_list, s.count = pdu_count e buffer ∧ s ∈ (nr_pdcp_entity_set_time e1 now).2) ∧
    ((∀ s ∈ e1.rx_list, s.count ≠ UINT32 - 1) →
      pdu_count e buffer < (nr_pdcp_entity_set_time e1 now).1.rx_deliv) := by
  have hI := run_invariant ks cs e0 e (initial_invariant e0 h0).1 hr
  obtain ⟨p, hp⟩ := recv_pdu_accepted ks e buffer hwf (le_of_lt hbuf) hnew
  rw [hp] at h1
  have h2 : recv_accepted e (pdu_count e buffer) p = (e1, d1) := Option.some.inj h1
  have hd : (recv_accepted e (pdu_count e buffer) p).2 = d1 := by rw [h2]
  have he : (recv_accepted e (pdu_count e buffer) p).1 = e1 := by rw [h2]
  have hlt2 : (recv_accepted e (pdu_count e buffer) p).1.rx_deliv <
      (recv_accepted e (pdu_count e buffer) p).1.rx_next := by rw [he]; exact hlt
  obtain ⟨a1, a2, a3, a4, a5, a6⟩ :=
    recv_accepted_arms e (pdu_count e buffer) p (Nat.ne_of_gt hbuf) hoff hlt2
  rw [hd] at a1
  rw [he] at a2 a3 a4 a5 a6
  have hdeliv : e1.rx_deliv = e.rx_deliv := by
    rw [← he, recv_accepted_rx_deliv, if_neg (Nat.ne_of_gt hbuf)]
  have hnext : e1.rx_next =
      if pdu_count e buffer ≥ e.rx_next then (pdu_count e buffer + 1) % UINT32 else e.rx_next := by
    rw [← he, recv_accepted_rx_next]
  have hcb := pdu_count_lt e buffer
  have hcn : pdu_count e buffer < e1.rx_next := by
    rw [hnext] at hlt ⊢
    split_ifs at hlt ⊢ with hc
    · by_cases hw : pdu_count e buffer + 1 < UINT32
      · rw [Nat.mod_eq_of_lt hw]; omega
      · have : pdu_count e buffer + 1 = UINT32 := by omega
        rw [this, Nat.mod_self] at hlt
        omega
    · omega
  have hasc : ascending e1.rx_list := by
    rw [a2]; exact ascending_list_add _ _ hI.sorted hnew
  have hmem : nr_pdcp_new_sdu (pdu_count e buffer) p ∈ e1.rx_list := by
    rw [a2]; exact (mem_list_add _ _ _).2 (Or.inl rfl)
  have hbd : ∀ s ∈ e1.rx_list, s.count < UINT32 := by
    intro s hs
    rw [a2] at hs
    rcases (mem_list_add _ _ _).1 hs with h | h
    · subst h; exact hcb
    · exact hI.bound s h
  have hmod : (now : Nat) % UINT64 = now := Nat.mod_eq_of_lt hnow64
  have hexp : ¬ (({ e1 with t_current := now % UINT64 } : nr_pdcp_entity_t).t_current : Int)
      ≤ ((({ e1 with t_current := now % UINT64 } : nr_pdcp_entity_t).t_reordering_start : Int)
          + ({ e1 with t_current := now % UINT64 } : nr_pdcp_entity_t).t_reordering)
        % (UINT64 : Int) := by
    simp only [hmod, a4, a6]
    have h64 : ((now : Nat) : Int) < (UINT64 : Int) := by exact_mod_cast hnow64
    rw [Int.emod_eq_of_lt (by omega) (by omega)]
    omega
  have harm : ({ e1 with t_current := now % UINT64 } : nr_pdcp_entity_t).t_reordering_start ≠ 0 := by
    simp only [a4]; exact ht0
  obtain ⟨x1, x2⟩ := check_t_reordering_expired { e1 with t_current := now % UINT64 } harm hexp
  simp only [] at x1 x2
  refine ⟨a1, a4, a3, ⟨_, hmem, rfl, ?_⟩, ?_⟩
  · unfold nr_pdcp_entity_set_time
    rw [x1]
    apply List.mem_append_left
    apply deliver_below_mem_of_lt _ _ hasc _ hmem
    rw [a3]; exact hcn
  · intro hm
    unfold nr_pdcp_entity_set_time
    rw [x2]
    have := (deliver_contiguous_delivered e1.rx_reord (deliver_below e1.rx_reord e1.rx_list).2
      (fun s hs => hbd s (deliver_below_snd_mem _ _ s hs))
      (fun s hs => hm s (deliver_below_snd_mem _ _ s
        (deliver_contiguous_delivered_mem _ _ s hs)))).2
    omega

/-- Witness of C8 (amended), `sn_size = 12`, `t_reordering = 10`, host time 1:
`recv_pdu` of SN 2, then `set_time(1)`, then `set_time(12)` results in exactly
one `deliver_sdu` call, for the SN 2 payload, made during `set_time(12)`, and
`rx_deliv = 3`. -/
theorem C8_timer_expiry_delivers_buffered_sdu_witness :
    (is_initial entity12 ∧
      (run ks0 entity12 [.set_time 1]).1 = some { entity12 with t_current := 1 } ∧
      nr_pdcp_entity_recv_pdu ks0 { entity12 with t_current := 1 } (pdu12 2 [7])
        = some ({ entity12 with
            rx_next := 3, rx_reord := 3, t_current := 1, t_reordering_start := 1,
            rx_list := [⟨2, [7]⟩], rx_size := 1 }, [])) ∧
    (run ks0 entity12 [.set_time 1, .recv_pdu (pdu12 2 [7]), .set_time 1]).2 = [] ∧
    run ks0 entity12 [.set_time 1, .recv_pdu (pdu12 2 [7]), .set_time 1, .set_time 12]
      = (some { entity12 with rx_next := 3, rx_deliv := 3, rx_reord := 3, t_current := 12 },
          [⟨2, [7]⟩]) ∧
    (∃ s ∈ [(⟨2, [7]⟩ : nr_pdcp_sdu_t)], s.count = 2 ∧
      s ∈ (nr_pdcp_entity_set_time { entity12 with
            rx_next := 3, rx_reord := 3, t_current := 1, t_reordering_start := 1,
            rx_list := [⟨2, [7]⟩], rx_size := 1 } 12).2) :=
  ⟨⟨entity12_initial, by decide, by decide⟩, by decide, by decide,
    (C8_timer_expiry_delivers_buffered_sdu ks0 entity12 { entity12 with t_current := 1 }
      { entity12 with
          rx_next := 3, rx_reord := 3, t_current := 1, t_reordering_start := 1,
          rx_list := [⟨2, [7]⟩], rx_size := 1 }
      [.set_time 1] (pdu12 2 [7]) [] 12
      entity12_initial (by decide) (by decide) (by decide) (by decide) (by decide) (by decide)
      (by decide) (by decide) (by decide) (by decide) (by decide)).2.2.2.1⟩

/-- C8 as stated fails. At host time 0 (the witness of the claim) the timer
that `recv_pdu` arms has `t_reordering_start = t_current = 0`, which reads as
not running: `set_time(0)` and `set_time(11)` deliver nothing and `rx_deliv`
stays 0. And at host time 5, with t-Reordering already running since time 1,
SN 3 is buffered out of order, yet `set_time(16)` delivers only COUNT 1,
leaves COUNT 3 in `rx_list` with `rx_deliv = 2`, and restarts the timer. -/
theorem C8_counterexample :
    run ks0 entity12 [.recv_pdu (pdu12 2 [7]), .set_time 0, .set_time 11]
      = (some { entity12 with
          rx_next := 3, rx_reord := 3, t_current := 11, rx_list := [⟨2, [7]⟩], rx_size := 1 },
          []) ∧
    run ks0 entity12 [.set_time 1, .recv_pdu (pdu12 1 [7]), .set_time 5,
        .recv_pdu (pdu12 3 [9]), .set_time 16]
      = (some { entity12 with
          rx_next := 4, rx_deliv := 2, rx_reord := 4, t_current := 16, t_reordering_start := 16,
          rx_list := [⟨3, [9]⟩], rx_size := 1 },
          [⟨1, [7]⟩]) :=
  ⟨by decide, by decide⟩

/-- C9, the code at the failing input: in its initial state the entity has
`t_current = 0`, so after `recv_pdu` of SN 1 nothing is delivered and
`rx_reord = 2`, but `t_reordering_start = t_current = 0`: t-Reordering is not
armed. After the following SN 0 both SDUs are delivered, SN 0 first,
`rx_deliv = 2` and `t_reordering_start = 0`. -/
theorem C9_code_at_failing_input :
    is_initial entity12 ∧
    nr_pdcp_entity_recv_pdu ks0 entity12 (pdu12 1 [0xBB])
      = some ({ entity12 with
          rx_next := 2, rx_reord := 2, t_reordering_start := 0,
          rx_list := [⟨1, [0xBB]⟩], rx_size := 1 }, []) ∧
    run ks0 entity12 [.recv_pdu (pdu12 1 [0xBB]), .recv_pdu (pdu12 0 [0xAA])]
      = (some { entity12 with
          rx_next := 2, rx_deliv := 2, rx_reord := 2, t_reordering_start := 0 },
          [⟨0, [0xAA]⟩, ⟨1, [0xBB]⟩]) :=
  ⟨entity12_initial, by decide, by decide⟩

/-! ## Timer idempotence -/

theorem check_t_reordering_idle (e : nr_pdcp_entity_t)
    (h : e.t_reordering_start = 0 ∨ (e.t_current : Int)
      ≤ ((e.t_reordering_start : Int) + e.t_reordering) % (UINT64 : Int)) :
    check_t_reordering e = (e, []) := by
  unfold check_t_reordering
  exact if_pos h

/-- After `check_t_reordering`, with `t_reordering ≥ 0` and no wrap of
`t_current + t_reordering`, the timer is either not running or not expired. -/
theorem check_t_reordering_settled (e : nr_pdcp_entity_t) (hT : 0 ≤ e.t_reordering)
    (hnow : (e.t_current : Int) + e.t_reordering < (UINT64 : Int)) :
    (check_t_reordering e).1.t_current = e.t_current ∧
    ((check_t_reordering e).1.t_reordering_start = 0 ∨
      ((check_t_reordering e).1.t_current : Int)
        ≤ (((check_t_reordering e).1.t_reordering_start : Int)
            + (check_t_reordering e).1.t_reordering) % (UINT64 : Int)) := by
  have hmod : ((e.t_current : Int) + e.t_reordering) % (UINT64 : Int)
      = (e.t_current : Int) + e.t_reordering := Int.emod_eq_of_lt (by omega) hnow
  unfold check_t_reordering
  split
  · rename_i h
    exact ⟨rfl, h⟩
  · simp only []
    split_ifs
    · refine ⟨rfl, Or.inr ?_⟩
      simp only [hmod]
      omega
    · exact ⟨rfl, Or.inl rfl⟩

theorem set_t_current_self (e : nr_pdcp_entity_t) (t : Nat) (h : e.t_current = t) :
    { e with t_current := t } = e := by
  subst h
  rfl

/-- C10 (amended): for every entity state with `t_reordering >= 0` and every
time value `now` with `now + t_reordering < 2^64`, calling `set_time(now)` and
then `set_time(now)` again makes no `deliver_sdu` call during the second call
and leaves the state after the second call equal to the state after the
first; a single `set_time` runs the expiry action of `check_t_reordering` at
most once, however far `now` is past the timer period. -/
theorem C10_set_time_idempotent (e : nr_pdcp_entity_t) (now : Nat) (hT : 0 ≤ e.t_reordering)
    (hnow : (now : Int) + e.t_reordering < (UINT64 : Int)) :
    nr_pdcp_entity_set_time (nr_pdcp_entity_set_time e now).1 now
      = ((nr_pdcp_entity_set_time e now).1, []) := by
  have hlt : now < UINT64 := by
    have : (now : Int) < (UINT64 : Int) := by omega
    exact_mod_cast this
  have hmod : now % UINT64 = now := Nat.mod_eq_of_lt hlt
  unfold nr_pdcp_entity_set_time
  rw [hmod]
  obtain ⟨h1, h2⟩ := check_t_reordering_settled { e with t_current := now } hT hnow
  rw [set_t_current_self _ now h1]
  exact check_t_reordering_idle _ h2

/-- Witness of C10 (amended): with SN 1 and SN 3 pending and the timer running
since time 1, `set_time(12)` delivers COUNT 1 and restarts the timer; the second
`set_time(12)` delivers nothing and changes nothing. -/
theorem C10_set_time_idempotent_witness :
    ((0 : Int) ≤ 10 ∧ ((12 : Nat) : Int) + 10 < (UINT64 : Int)) ∧
    nr_pdcp_entity_set_time { entity12 with
        rx_next := 4, rx_reord := 2, t_current := 1, t_reordering_start := 1,
        rx_list := [⟨1, [7]⟩, ⟨3, [9]⟩], rx_size := 2 } 12
      = ({ entity12 with
          rx_next := 4, rx_deliv := 2, rx_reord := 4, t_current := 12, t_reordering_start := 12,
          rx_list := [⟨3, [9]⟩], rx_size := 1 }, [⟨1, [7]⟩]) ∧
    nr_pdcp_entity_set_time (nr_pdcp_entity_set_time { entity12 with
        rx_next := 4, rx_reord := 2, t_current := 1, t_reordering_start := 1,
        rx_list := [⟨1, [7]⟩, ⟨3, [9]⟩], rx_size := 2 } 12).1 12
      = ((nr_pdcp_entity_set_time { entity12 with
          rx_next := 4, rx_reord := 2, t_current := 1, t_reordering_start := 1,
          rx_list := [⟨1, [7]⟩, ⟨3, [9]⟩], rx_size := 2 } 12).1, []) :=
  ⟨⟨by decide, by decide⟩, by decide,
    C10_set_time_idempotent { entity12 with
        rx_next := 4, rx_reord := 2, t_current := 1, t_reordering_start := 1,
        rx_list := [⟨1, [7]⟩, ⟨3, [9]⟩], rx_size := 2 } 12 (by decide) (by decide)⟩

/-- C10 as stated fails for `now = 2^64 - 1`: in the state reached from the
initial state by `set_time(1)`, SN 1, SN 3, the first `set_time(now)` delivers
COUNT 1 and restarts the timer at `now`; `now + t_reordering` wraps to 9, so
the second `set_time(now)` finds the timer expired, delivers COUNT 3 and
changes the state. -/
theorem C10_counterexample :
    is_initial entity12 ∧
    (run ks0 entity12 [.set_time 1, .recv_pdu (pdu12 1 [7]), .recv_pdu (pdu12 3 [9])]).1
      = some { entity12 with
          rx_next := 4, rx_reord := 2, t_current := 1, t_reordering_start := 1,
          rx_list := [⟨1, [7]⟩, ⟨3, [9]⟩], rx_size := 2 } ∧
    nr_pdcp_entity_set_time { entity12 with
        rx_next := 4, rx_reord := 2, t_current := 1, t_reordering_start := 1,
        rx_list := [⟨1, [7]⟩, ⟨3, [9]⟩], rx_size := 2 } 18446744073709551615
      = ({ entity12 with
          rx_next := 4, rx_deliv := 2, rx_reord := 4, t_current := 18446744073709551615,
          t_reordering_start := 18446744073709551615,
          rx_list := [⟨3, [9]⟩], rx_size := 1 }, [⟨1, [7]⟩]) ∧
    nr_pdcp_entity_set_time { entity12 with
        rx_next := 4, rx_deliv := 2, rx_reord := 4, t_current := 18446744073709551615,
        t_reordering_start := 18446744073709551615,
        rx_list := [⟨3, [9]⟩], rx_size := 1 } 18446744073709551615
      = ({ entity12 with
          rx_next := 4, rx_deliv := 4, rx_reord := 4, t_current := 18446744073709551615 },
          [⟨3, [9]⟩]) :=
  ⟨entity12_initial, by decide, by decide, by decide⟩

/-! ## Header encode / decode -/

theorem or_0x80_lt_16 (y : Nat) (hy : y < 16) : 0x80 ||| y = 128 + y := by
  interval_cases y <;> rfl

theorem and_0xf (x : Nat) : x &&& 0xf = x % 16 := Nat.and_pow_two_sub_one_eq_mod x 4

theorem and_0x3 (x : Nat) : x &&& 0x3 = x % 4 := Nat.and_pow_two_sub_one_eq_mod x 2

theorem and_0xff (x : Nat) : x &&& 0xff = x % 256 := Nat.and_pow_two_sub_one_eq_mod x 8

theorem shl_or_lt (a b i : Nat) (hb : b < 2 ^ i) : (a <<< i) ||| b = a * 2 ^ i + b := by
  rw [Nat.shiftLeft_eq, Nat.mul_comm, Nat.mul_add_lt_is_or hb]

theorem byte_0x80_or_and (y : Nat) (hy : y < 16) : byte (0x80 ||| y) &&& 0x80 ≠ 0 := by
  interval_cases y <;> decide

/-- The 12-bit header written by `nr_pdcp_entity_recv_sdu` decodes to its SN. -/
theorem decode_header12 (sn : Nat) (h : sn < 4096) (p : List Nat) :
    decode_rcvd_sn 12 ([byte (0x80 ||| ((sn >>> 8) &&& 0xf)), byte (sn &&& 0xff)] ++ p) = sn := by
  unfold decode_rcvd_sn
  simp only [if_true, List.cons_append, List.getD_cons_zero, List.getD_cons_succ, and_0xf,
    and_0xff, Nat.shiftRight_eq_div_pow]
  rw [or_0x80_lt_16 _ (Nat.mod_lt _ (by norm_num))]
  unfold byte
  have hB : sn % 256 % 256 % 256 < 2 ^ 8 := by omega
  rw [shl_or_lt _ _ 8 hB]
  omega

/-- The 18-bit header written by `nr_pdcp_entity_recv_sdu` decodes to its SN. -/
theorem decode_header18 (sn : Nat) (h : sn < 262144) (p : List Nat) :
    decode_rcvd_sn 18 ([byte (0x80 ||| ((sn >>> 16) &&& 0x3)), byte ((sn >>> 8) &&& 0xff),
      byte (sn &&& 0xff)] ++ p) = sn := by
  unfold decode_rcvd_sn
  simp only [show ¬ (18 = 12) by decide, if_false, List.cons_append, List.getD_cons_zero,
    List.getD_cons_succ, and_0x3, and_0xff, Nat.shiftRight_eq_div_pow]
  rw [or_0x80_lt_16 _ (by omega)]
  unfold byte
  have hC : sn % 256 % 256 % 256 < 2 ^ 8 := by omega
  have hB : (sn / 2 ^ 8 % 256 % 256 % 256) <<< 8 < 2 ^ 16 := by
    rw [Nat.shiftLeft_eq]; omega
  rw [shl_or_lt _ _ 16 hB, Nat.shiftLeft_eq]
  have hX : (128 + sn / 2 ^ 16 % 4) % 256 % 256 % 4 * 2 ^ 16 + sn / 2 ^ 8 % 256 % 256 % 256 * 2 ^ 8
      = 2 ^ 8 * ((128 + sn / 2 ^ 16 % 4) % 256 % 256 % 4 * 2 ^ 8 + sn / 2 ^ 8 % 256 % 256 % 256) := by
    omega
  rw [hX, ← Nat.mul_add_lt_is_or hC]
  omega

theorem cipher_length (ks : List Nat → Int → Nat → Nat → Nat → Nat) (key buf : List Nat)
    (b : Int) (c d : Nat) : (cipher ks key buf b c d).length = buf.length := by
  simp [cipher]

/-- Ciphering twice with the same key, bearer, COUNT and direction gives the
buffer back. -/
theorem cipher_cipher (ks : List Nat → Int → Nat → Nat → Nat → Nat) (key buf : List Nat)
    (b : Int) (c d : Nat) : cipher ks key (cipher ks key buf b c d) b c d = buf := by
  apply List.ext_getElem
  · simp [cipher]
  · intro i h1 h2
    simp [cipher, Nat.xor_cancel_right]

theorem encode_header_length (sn_size sn : Nat) :
    (encode_header sn_size sn).length = decode_header_size sn_size := by
  unfold encode_header decode_header_size
  split <;> rfl

theorem decode_encode_header (sn_size sn : Nat) (hsn : sn_size = 12 ∨ sn_size = 18)
    (h : sn < 2 ^ sn_size) (p : List Nat) :
    decode_rcvd_sn sn_size (encode_header sn_size sn ++ p) = sn := by
  rcases hsn with hs | hs
  · subst hs
    exact decode_header12 sn (by simpa using h) p
  · subst hs
    exact decode_header18 sn (by simpa using h) p

theorem byte_byte (b : Nat) : byte (byte b) = byte b := by
  unfold byte
  exact Nat.mod_mod _ _

theorem encode_header_data_bit (sn_size sn : Nat) (p : List Nat) :
    byte ((encode_header sn_size sn ++ p).getD 0 0) &&& 0x80 ≠ 0 := by
  unfold encode_header
  split
  · simp only [List.cons_append, List.getD_cons_zero, byte_byte]
    exact byte_0x80_or_and _ (by rw [and_0xf]; omega)
  · simp only [List.cons_append, List.getD_cons_zero, byte_byte]
    exact byte_0x80_or_and _ (by rw [and_0x3]; omega)

/-- What `nr_pdcp_entity_recv_pdu` does with a PDU made of a header written by
`nr_pdcp_entity_recv_sdu` and a non-empty payload. -/
theorem recv_pdu_encoded (ks : List Nat → Int → Nat → Nat → Nat → Nat) (rx : nr_pdcp_entity_t)
    (sn : Nat) (p : List Nat) (hsn : rx.sn_size = 12 ∨ rx.sn_size = 18)
    (h : sn < 2 ^ rx.sn_size) (hp : p ≠ []) :
    nr_pdcp_entity_recv_pdu ks rx (encode_header rx.sn_size sn ++ p) =
      if infer_rcvd_count rx sn < rx.rx_deliv ∨
          nr_pdcp_sdu_in_list rx.rx_list (infer_rcvd_count rx sn) = true then
        some (rx, [])
      else
        some (recv_accepted rx (infer_rcvd_count rx sn)
          (if rx.has_ciphering then
            cipher ks rx.ciphering_key p rx.rb_id (infer_rcvd_count rx sn)
              (if rx.is_gnb then 0 else 1)
          else p)) := by
  have hl : 0 < p.length := List.length_pos.2 hp
  have hlen := encode_header_length rx.sn_size sn
  unfold nr_pdcp_entity_recv_pdu
  simp only []
  rw [if_neg (by rw [List.length_append]; omega), if_neg (encode_header_data_bit _ _ _),
    if_neg (by rw [List.length_append]; omega), decode_encode_header _ _ hsn h,
    List.drop_left' hlen]

theorem infer_rcvd_count_in_order (rx : nr_pdcp_entity_t) (n : Nat)
    (hmax : rx.sn_max = 2 ^ rx.sn_size - 1)
    (hw : rx.window_size = 2 ^ (rx.sn_size - 1)) (hd : rx.rx_deliv = n)
    (hn : n < 2 ^ rx.sn_size) : infer_rcvd_count rx n = n := by
  have hpos : (0 : Int) < ((2 ^ (rx.sn_size - 1) : Nat) : Int) := by
    exact_mod_cast Nat.pos_pow_of_pos _ (by norm_num)
  unfold infer_rcvd_count
  simp only [hd, hmax, hw]
  rw [Nat.and_pow_two_sub_one_eq_mod, Nat.mod_eq_of_lt hn, Nat.shiftRight_eq_div_pow,
    Nat.div_eq_of_lt hn, Nat.zero_and, if_neg (by omega), if_neg (by omega)]
  simp

theorem recv_accepted_in_order (e : nr_pdcp_entity_t) (c : Nat) (p : List Nat)
    (hl : e.rx_list = []) (hd : e.rx_deliv = c) (hn : e.rx_next = c)
    (hs : e.t_reordering_start = 0) (hc : c + 1 < UINT32) :
    recv_accepted e c p = ({ e with rx_next := c + 1, rx_deliv := c + 1 }, [⟨c, p⟩]) := by
  cases e
  simp only at hl hd hn hs
  subst hl hd hn hs
  simp [recv_accepted, nr_pdcp_sdu_list_add, deliver_contiguous, nr_pdcp_new_sdu, sdu_bytes,
    Nat.mod_eq_of_lt hc]

/-! ## Round trip -/

theorem recv_sdu_eq (ks : List Nat → Int → Nat → Nat → Nat → Nat) (tx : nr_pdcp_entity_t)
    (sdu : List Nat) (id : Int) :
    nr_pdcp_entity_recv_sdu ks tx sdu id =
      ({ tx with tx_next := (tx.tx_next + 1) % UINT32 },
        (encode_header tx.sn_size (tx.tx_next &&& tx.sn_max) ++
          (if tx.has_ciphering then
            cipher ks tx.ciphering_key sdu tx.rb_id tx.tx_next (if tx.is_gnb then 1 else 0)
          else sdu), id)) := rfl

theorem round_trip_step (ks : List Nat → Int → Nat → Nat → Nat → Nat) (tx rx : nr_pdcp_entity_t)
    (n : Nat) (sdu : List Nat) (id : Int) (hp : paired n tx rx) (hn : n < 2 ^ rx.sn_size)
    (hne : sdu ≠ []) :
    nr_pdcp_entity_recv_pdu ks rx (nr_pdcp_entity_recv_sdu ks tx sdu id).2.1
        = some ({ rx with rx_next := n + 1, rx_deliv := n + 1 }, [⟨n, sdu⟩]) ∧
      paired (n + 1) (nr_pdcp_entity_recv_sdu ks tx sdu id).1
        { rx with rx_next := n + 1, rx_deliv := n + 1 } := by
  have h18 : n < 2 ^ 18 := by
    rcases hp.sn_size with h | h <;> rw [h] at hn <;> omega
  have hU : n + 1 < UINT32 := by unfold UINT32; omega
  have hpair : paired (n + 1) (nr_pdcp_entity_recv_sdu ks tx sdu id).1
      { rx with rx_next := n + 1, rx_deliv := n + 1 } :=
    { sn_size := hp.sn_size
      tx_sn_size := hp.tx_sn_size
      tx_sn_max := hp.tx_sn_max
      rx_sn_max := hp.rx_sn_max
      rx_window := hp.rx_window
      tx_next := by
        show (tx.tx_next + 1) % UINT32 = n + 1
        rw [hp.tx_next, Nat.mod_eq_of_lt hU]
      rx_deliv := rfl
      rx_next := rfl
      rx_list := hp.rx_list
      timer := hp.timer
      ciphering := hp.ciphering
      key := hp.key
      rb_id := hp.rb_id
      is_gnb := hp.is_gnb }
  refine ⟨?_, hpair⟩
  rw [recv_sdu_eq]
  simp only []
  have hsn : tx.tx_next &&& tx.sn_max = n := by
    rw [hp.tx_next, hp.tx_sn_max, Nat.and_pow_two_sub_one_eq_mod, Nat.mod_eq_of_lt hn]
  rw [hsn, hp.tx_sn_size, hp.tx_next, hp.ciphering, hp.key, hp.rb_id, hp.is_gnb]
  have hpl : (if rx.has_ciphering then
      cipher ks rx.ciphering_key sdu rx.rb_id n (if (!rx.is_gnb) = true then 1 else 0)
      else sdu) ≠ [] := by
    intro h0
    have := congrArg List.length h0
    split_ifs at this
    all_goals
      first
        | (rw [cipher_length] at this; exact hne (List.length_eq_zero.1 this))
        | exact hne (List.length_eq_zero.1 this)
  have hinf := infer_rcvd_count_in_order rx n hp.rx_sn_max hp.rx_window hp.rx_deliv hn
  have hnot : ¬ (n < rx.rx_deliv ∨ nr_pdcp_sdu_in_list rx.rx_list n = true) := by
    rw [hp.rx_deliv, hp.rx_list]
    simp [nr_pdcp_sdu_in_list]
  rw [recv_pdu_encoded ks rx n _ hp.sn_size hn hpl, hinf, if_neg hnot,
    recv_accepted_in_order rx n _ hp.rx_list hp.rx_deliv hp.rx_next hp.timer hU]
  have hpay : (if rx.has_ciphering then
      cipher ks rx.ciphering_key
        (if rx.has_ciphering then
          cipher ks rx.ciphering_key sdu rx.rb_id n (if (!rx.is_gnb) = true then 1 else 0)
        else sdu) rx.rb_id n (if rx.is_gnb then 0 else 1)
      else
        (if rx.has_ciphering then
          cipher ks rx.ciphering_key sdu rx.rb_id n (if (!rx.is_gnb) = true then 1 else 0)
        else sdu)) = sdu := by
    cases hc : rx.has_ciphering
    · simp
    · cases hg : rx.is_gnb <;> simp [cipher_cipher]
  rw [hpay]

theorem round_trip_paired (ks : List Nat → Int → Nat → Nat → Nat → Nat) (sdus : List (List Nat)) :
    ∀ (n : Nat) (tx rx : nr_pdcp_entity_t), paired n tx rx →
      n + sdus.length ≤ 2 ^ rx.sn_size → (∀ s ∈ sdus, s ≠ []) →
      (run ks rx ((send_all ks tx sdus).map call_t.recv_pdu)).2.map nr_pdcp_sdu_t.buffer = sdus ∧
      (run ks rx ((send_all ks tx sdus).map call_t.recv_pdu)).2.map nr_pdcp_sdu_t.count
        = List.range' n sdus.length ∧
      (run ks rx ((send_all ks tx sdus).map call_t.recv_pdu)).1 ≠ none := by
  induction sdus with
  | nil =>
    intro n tx rx _ _ _
    simp [send_all, run]
  | cons sdu sdus ih =>
    intro n tx rx hp hlen hne
    have hlen2 : n + 1 + sdus.length ≤ 2 ^ rx.sn_size := by
      simp only [List.length_cons] at hlen; omega
    obtain ⟨h1, h2⟩ := round_trip_step ks tx rx n sdu 0 hp (by omega)
      (hne sdu (List.mem_cons_self _ _))
    have ih2 := ih (n + 1) _ _ h2 hlen2 (fun s hs => hne s (List.mem_cons_of_mem _ hs))
    have hcall : call ks rx (call_t.recv_pdu (nr_pdcp_entity_recv_sdu ks tx sdu 0).2.1)
        = some ({ rx with rx_next := n + 1, rx_deliv := n + 1 }, [⟨n, sdu⟩]) := h1
    simp only [send_all, List.map_cons]
    rw [run_cons ks rx _ _ _ _ hcall]
    simp only [List.map_append, List.map_cons, List.map_nil, List.singleton_append,
      List.length_cons, List.range'_succ]
    exact ⟨by rw [ih2.1], by rw [ih2.2.1], ih2.2.2⟩

theorem new_entities_paired (is_gnb : Bool) (rb_id : Int) (sn_size : Nat)
    (t_tx t_rx d_tx d_rx : Int) (ciphering_algorithm i_tx i_rx : Int)
    (ciphering_key k_tx k_rx : Option (List Nat)) (tx rx : nr_pdcp_entity_t)
    (hsn : sn_size = 12 ∨ sn_size = 18)
    (htx : new_nr_pdcp_entity is_gnb rb_id sn_size t_tx d_tx ciphering_algorithm i_tx
      ciphering_key k_tx = some tx)
    (hrx : new_nr_pdcp_entity (!is_gnb) rb_id sn_size t_rx d_rx ciphering_algorithm i_rx
      ciphering_key k_rx = some rx) : paired 0 tx rx := by
  unfold new_nr_pdcp_entity at htx hrx
  simp only [] at htx hrx
  split_ifs at htx hrx <;>
  · have htx := (Option.some.inj htx).symm
    have hrx := (Option.some.inj hrx).symm
    subst htx hrx
    exact
      { sn_size := hsn
        tx_sn_size := rfl
        tx_sn_max := by simp [Nat.shiftLeft_eq]
        rx_sn_max := by simp [Nat.shiftLeft_eq]
        rx_window := by simp [Nat.shiftLeft_eq]
        tx_next := rfl
        rx_deliv := rfl
        rx_next := rfl
        rx_list := rfl
        timer := rfl
        ciphering := rfl
        key := rfl
        rb_id := rfl
        is_gnb := by simp }

/-- C3 (amended): take a TX entity and an RX entity, both freshly constructed
with the same `sn_size` in {12, 18}, the same `rb_id`, ciphering algorithm and
ciphering key, and opposite `is_gnb`, the cipher being an XOR keystream
determined by (key, count, bearer, direction). For every list of at most
`2^sn_size` non-empty SDUs, calling `recv_sdu` on the TX entity for each SDU
in turn and feeding each emitted PDU, in the same order, to `recv_pdu` of the
RX entity makes the RX entity call `deliver_sdu` exactly once per SDU, in the
same order (COUNTs 0, 1, 2, ...), with a payload byte-for-byte equal to the
original SDU. -/
theorem C3_round_trip (ks : List Nat → Int → Nat → Nat → Nat → Nat)
    (is_gnb : Bool) (rb_id : Int) (sn_size : Nat)
    (t_tx t_rx d_tx d_rx : Int) (ciphering_algorithm i_tx i_rx : Int)
    (ciphering_key k_tx k_rx : Option (List Nat)) (tx rx : nr_pdcp_entity_t)
    (sdus : List (List Nat))
    (hsn : sn_size = 12 ∨ sn_size = 18)
    (htx : new_nr_pdcp_entity is_gnb rb_id sn_size t_tx d_tx ciphering_algorithm i_tx
      ciphering_key k_tx = some tx)
    (hrx : new_nr_pdcp_entity (!is_gnb) rb_id sn_size t_rx d_rx ciphering_algorithm i_rx
      ciphering_key k_rx = some rx)
    (hlen : sdus.length ≤ 2 ^ sn_size) (hne : ∀ s ∈ sdus, s ≠ []) :
    (run ks rx ((send_all ks tx sdus).map call_t.recv_pdu)).2.map nr_pdcp_sdu_t.buffer = sdus ∧
    (run ks rx ((send_all ks tx sdus).map call_t.recv_pdu)).2.map nr_pdcp_sdu_t.count
      = List.range' 0 sdus.length := by
  have hp := new_entities_paired is_gnb rb_id sn_size t_tx t_rx d_tx d_rx ciphering_algorithm
    i_tx i_rx ciphering_key k_tx k_rx tx rx hsn htx hrx
  have hs : rx.sn_size = sn_size := by
    unfold new_nr_pdcp_entity at hrx
    simp only [] at hrx
    split_ifs at hrx <;>
    · have hrx := (Option.some.inj hrx).symm
      subst hrx
      rfl
  have h := round_trip_paired ks sdus 0 tx rx hp (by rw [hs]; omega) hne
  exact ⟨h.1, h.2.1⟩

/-- Witness of C3 (amended): two SDUs through a gNB-side TX entity and a UE-side
RX entity with NEA2 ciphering under the same key; the PDUs carry the ciphered
payloads, the RX entity delivers the original SDUs in order. -/
theorem C3_round_trip_witness :
    (new_nr_pdcp_entity true 1 12 10 0 2 0 (some key_sample) none = some tx12_nea2 ∧
      new_nr_pdcp_entity (!true) 1 12 10 0 2 0 (some key_sample) none = some rx12_nea2) ∧
    send_all ks_sample tx12_nea2 [[1, 2, 3], [4]] = [[128, 0, 140, 144, 148], [128, 1, 144]] ∧
    ((run ks_sample rx12_nea2
        ((send_all ks_sample tx12_nea2 [[1, 2, 3], [4]]).map call_t.recv_pdu)).2.map
          nr_pdcp_sdu_t.buffer = [[1, 2, 3], [4]] ∧
      (run ks_sample rx12_nea2
        ((send_all ks_sample tx12_nea2 [[1, 2, 3], [4]]).map call_t.recv_pdu)).2.map
          nr_pdcp_sdu_t.count = List.range' 0 [[1, 2, 3], [4]].length) :=
  ⟨⟨by decide, by decide⟩, by decide,
    C3_round_trip ks_sample true 1 12 10 10 0 0 2 0 0 (some key_sample) none none
      tx12_nea2 rx12_nea2 [[1, 2, 3], [4]] (Or.inl rfl) (by decide) (by decide)
      (by decide) (by decide)⟩

/-- C3 as stated fails for an empty SDU: `recv_sdu` emits the two header bytes
alone, and `recv_pdu` drops a PDU of `size < header_size + 1`, so nothing is
delivered. -/
theorem C3_counterexample :
    (new_nr_pdcp_entity true 1 12 10 0 0 0 none none = some { entity12 with is_gnb := true } ∧
      new_nr_pdcp_entity (!true) 1 12 10 0 0 0 none none = some entity12) ∧
    send_all ks0 { entity12 with is_gnb := true } [[]] = [[128, 0]] ∧
    run ks0 entity12 ((send_all ks0 { entity12 with is_gnb := true } [[]]).map call_t.recv_pdu)
      = (some entity12, []) ∧
    (run ks0 entity12
      ((send_all ks0 { entity12 with is_gnb := true } [[]]).map call_t.recv_pdu)).2.map
        nr_pdcp_sdu_t.buffer ≠ [[]] :=
  ⟨⟨by decide, by decide⟩, by decide, by decide, by decide⟩

/-! ## Transmit path -/

theorem byte_of_lt (b : Nat) (h : b < 256) : byte b = b := Nat.mod_eq_of_lt h

theorem encode_header12 (sn : Nat) :
    encode_header 12 sn = [0x80 ||| ((sn >>> 8) &&& 0xf), sn &&& 0xff] := by
  have h1 : (sn >>> 8) &&& 0xf < 16 := by rw [and_0xf]; omega
  have h2 : sn &&& 0xff < 256 := by rw [and_0xff]; omega
  unfold encode_header
  rw [if_pos rfl, or_0x80_lt_16 _ h1, byte_of_lt _ (by omega), byte_of_lt _ h2]

theorem encode_header18 (sn : Nat) :
    encode_header 18 sn
      = [0x80 ||| ((sn >>> 16) &&& 0x3), (sn >>> 8) &&& 0xff, sn &&& 0xff] := by
  have h1 : (sn >>> 16) &&& 0x3 < 4 := by rw [and_0x3]; omega
  have h2 : (sn >>> 8) &&& 0xff < 256 := by rw [and_0xff]; omega
  have h3 : sn &&& 0xff < 256 := by rw [and_0xff]; omega
  unfold encode_header
  rw [if_neg (by decide), or_0x80_lt_16 _ (by omega), byte_of_lt _ (by omega),
    byte_of_lt _ h2, byte_of_lt _ h3]

theorem header_bits12 (y : Nat) (hy : y < 16) :
    (0x80 ||| y) &&& 0x80 = 0x80 ∧ (0x80 ||| y) &&& 0x70 = 0 := by
  interval_cases y <;> decide

theorem header_bits18 (y : Nat) (hy : y < 4) :
    (0x80 ||| y) &&& 0x80 = 0x80 ∧ (0x80 ||| y) &&& 0x7c = 0 := by
  interval_cases y <;> decide

/-- C11 (amended): for `sn_size` 12 and 18, every `tx_next` and every SDU,
`recv_sdu` makes one `deliver_pdu` call, with a PDU of `size + header_size`
bytes (`header_size` 2 for 12-bit, 3 for 18-bit) and the caller's `sdu_id`;
with `sn = tx_next & sn_max` the header bytes are
`{0x80 | ((sn>>8) & 0x0f), sn & 0xff}` for 12-bit and
`{0x80 | ((sn>>16) & 0x03), (sn>>8) & 0xff, sn & 0xff}` for 18-bit, so the D/C
bit is 1 and all reserved bits are 0; when ciphering is disabled the bytes
after the header equal the SDU; `tx_next` afterwards is the old `tx_next + 1`
modulo `2^32`, which is the old `tx_next + 1` for every `tx_next` below
`0xFFFFFFFF`; and no other field of the entity changes, in particular no
receive-side field. -/
theorem C11_transmit_path (ks : List Nat → Int → Nat → Nat → Nat → Nat)
    (e : nr_pdcp_entity_t) (buffer : List Nat) (sdu_id : Int) :
    (nr_pdcp_entity_recv_sdu ks e buffer sdu_id).2.2 = sdu_id ∧
    (nr_pdcp_entity_recv_sdu ks e buffer sdu_id).2.1.length
      = buffer.length + (if e.sn_size = 12 then 2 else 3) ∧
    (e.sn_size = 12 →
      (nr_pdcp_entity_recv_sdu ks e buffer sdu_id).2.1.take 2
        = [0x80 ||| (((e.tx_next &&& e.sn_max) >>> 8) &&& 0xf),
            (e.tx_next &&& e.sn_max) &&& 0xff] ∧
      (0x80 ||| (((e.tx_next &&& e.sn_max) >>> 8) &&& 0xf)) &&& 0x80 = 0x80 ∧
      (0x80 ||| (((e.tx_next &&& e.sn_max) >>> 8) &&& 0xf)) &&& 0x70 = 0) ∧
    (e.sn_size = 18 →
      (nr_pdcp_entity_recv_sdu ks e buffer sdu_id).2.1.take 3
        = [0x80 ||| (((e.tx_next &&& e.sn_max) >>> 16) &&& 0x3),
            ((e.tx_next &&& e.sn_max) >>> 8) &&& 0xff, (e.tx_next &&& e.sn_max) &&& 0xff] ∧
      (0x80 ||| (((e.tx_next &&& e.sn_max) >>> 16) &&& 0x3)) &&& 0x80 = 0x80 ∧
      (0x80 ||| (((e.tx_next &&& e.sn_max) >>> 16) &&& 0x3)) &&& 0x7c = 0) ∧
    (e.has_ciphering = false →
      (nr_pdcp_entity_recv_sdu ks e buffer sdu_id).2.1.drop (if e.sn_size = 12 then 2 else 3)
        = buffer) ∧
    (nr_pdcp_entity_recv_sdu ks e buffer sdu_id).1
      = { e with tx_next := (e.tx_next + 1) % UINT32 } ∧
    (e.tx_next < UINT32 - 1 →
      (nr_pdcp_entity_recv_sdu ks e buffer sdu_id).1.tx_next = e.tx_next + 1) := by
  rw [recv_sdu_eq]
  simp only []
  have hlen : (if e.has_ciphering = true then
      cipher ks e.ciphering_key buffer e.rb_id e.tx_next (if e.is_gnb = true then 1 else 0)
      else buffer).length = buffer.length := by
    split_ifs <;> simp [cipher_length]
  refine ⟨trivial, ?_, ?_, ?_, ?_, trivial, ?_⟩
  · rw [List.length_append, encode_header_length, hlen]
    unfold decode_header_size
    omega
  · intro h12
    rw [h12, encode_header12]
    refine ⟨by simp, ?_⟩
    exact header_bits12 _ (by rw [and_0xf]; omega)
  · intro h18
    rw [h18, encode_header18]
    refine ⟨by simp, ?_⟩
    exact header_bits18 _ (by rw [and_0x3]; omega)
  · intro hc
    rw [hc]
    simp only [Bool.false_eq_true, if_false]
    exact List.drop_left' (encode_header_length _ _)
  · intro h
    exact Nat.mod_eq_of_lt (by omega)

/-- Witness of C11 (amended): a 12-bit entity with `tx_next = 0x2A5` and no
ciphering sends the SDU `AA BB` as `82 A5 AA BB`; `tx_next` becomes `0x2A6`. -/
theorem C11_transmit_path_witness :
    nr_pdcp_entity_recv_sdu ks0 { entity12 with tx_next := 0x2A5 } [0xAA, 0xBB] 7
      = ({ entity12 with tx_next := 0x2A6 }, ([0x82, 0xA5, 0xAA, 0xBB], 7)) ∧
    (nr_pdcp_entity_recv_sdu ks0 { entity12 with tx_next := 0x2A5 } [0xAA, 0xBB] 7).2.1.length
      = [0xAA, 0xBB].length + 2 ∧
    (nr_pdcp_entity_recv_sdu ks0 { entity12 with tx_next := 0x2A5 } [0xAA, 0xBB] 7).1.tx_next
      = 0x2A5 + 1 :=
  ⟨by decide,
    (C11_transmit_path ks0 { entity12 with tx_next := 0x2A5 } [0xAA, 0xBB] 7).2.1,
    (C11_transmit_path ks0 { entity12 with tx_next := 0x2A5 } [0xAA, 0xBB] 7).2.2.2.2.2.2
      (by decide)⟩

/-- C11 as stated fails for `tx_next = 0xFFFFFFFF`: `entity->tx_next++` is
`uint32_t` arithmetic, `tx_next` afterwards is 0, below the old value. -/
theorem C11_counterexample :
    nr_pdcp_entity_recv_sdu ks0 { entity12 with tx_next := 0xFFFFFFFF } [0xAA] 7
      = ({ entity12 with tx_next := 0 }, ([0x8F, 0xFF, 0xAA], 7)) ∧
    ¬ ((nr_pdcp_entity_recv_sdu ks0 { entity12 with tx_next := 0xFFFFFFFF } [0xAA] 7).1.tx_next
        = 0xFFFFFFFF + 1) :=
  ⟨by decide, by decide⟩

/-! ## Construction -/

/-- C12 (amended): `new_nr_pdcp_entity` fails (fatal abort) and returns no
entity for every set of constructor arguments with a ciphering key supplied
whose `ciphering_algorithm` is neither 0 nor 2, and whenever an integrity key
is supplied. Without an integrity key: with no ciphering key or with
`ciphering_algorithm` 0 it returns an entity with `has_ciphering = 0`, whatever
the algorithm when no key is supplied; with `ciphering_algorithm` 2 and a key
it returns an entity with `has_ciphering = 1`. -/
theorem C12_constructor_cipher_check (is_gnb : Bool) (rb_id : Int) (sn_size : Nat)
    (t_reordering discard_timer ciphering_algorithm integrity_algorithm : Int)
    (ciphering_key integrity_key : Option (List Nat)) :
    (ciphering_key.isSome = true → ciphering_algorithm ≠ 0 → ciphering_algorithm ≠ 2 →
      new_nr_pdcp_entity is_gnb rb_id sn_size t_reordering discard_timer ciphering_algorithm
        integrity_algorithm ciphering_key integrity_key = none) ∧
    (integrity_key.isSome = true →
      new_nr_pdcp_entity is_gnb rb_id sn_size t_reordering discard_timer ciphering_algorithm
        integrity_algorithm ciphering_key integrity_key = none) ∧
    (integrity_key = none → ciphering_key = none ∨ ciphering_algorithm = 0 →
      ∃ e, new_nr_pdcp_entity is_gnb rb_id sn_size t_reordering discard_timer
          ciphering_algorithm integrity_algorithm ciphering_key integrity_key = some e ∧
        e.has_ciphering = false) ∧
    (integrity_key = none → ciphering_key.isSome = true → ciphering_algorithm = 2 →
      ∃ e, new_nr_pdcp_entity is_gnb rb_id sn_size t_reordering discard_timer
          ciphering_algorithm integrity_algorithm ciphering_key integrity_key = some e ∧
        e.has_ciphering = true) := by
  refine ⟨?_, ?_, ?_, ?_⟩
  · intro hk h0 h2
    unfold new_nr_pdcp_entity
    simp only []
    rw [if_pos ⟨hk, h0, h2⟩]
  · intro hi
    unfold new_nr_pdcp_entity
    simp only []
    split_ifs <;> rfl
  · intro hi hc
    have hnot : ¬ (ciphering_key.isSome = true ∧ ciphering_algorithm ≠ 0) := by
      rintro ⟨hk, h0⟩
      rcases hc with hc | hc
      · rw [hc] at hk; exact Bool.false_ne_true hk
      · exact h0 hc
    unfold new_nr_pdcp_entity
    simp only []
    rw [if_neg (fun h => hnot ⟨h.1, h.2.1⟩), if_neg hnot, hi]
    exact ⟨_, rfl, rfl⟩
  · intro hi hk h2
    have hpos : ciphering_key.isSome = true ∧ ciphering_algorithm ≠ 0 :=
      ⟨hk, by rw [h2]; decide⟩
    unfold new_nr_pdcp_entity
    simp only []
    rw [if_neg (fun h => h.2.2 h2), if_pos hpos, hi]
    exact ⟨_, rfl, rfl⟩

/-- Witness of C12 (amended): algorithm 1 with a key is refused, algorithm 2
with a key gives a ciphering entity, algorithm 0 gives a non-ciphering one, an
integrity key is refused. -/
theorem C12_constructor_cipher_check_witness :
    new_nr_pdcp_entity false 1 12 10 0 1 0 (some key_sample) none = none ∧
    new_nr_pdcp_entity false 1 12 10 0 2 0 (some key_sample) (some key_sample) = none ∧
    (∃ e, new_nr_pdcp_entity false 1 12 10 0 0 0 (some key_sample) none = some e ∧
      e.has_ciphering = false) ∧
    (∃ e, new_nr_pdcp_entity false 1 12 10 0 2 0 (some key_sample) none = some e ∧
      e.has_ciphering = true) :=
  ⟨(C12_constructor_cipher_check false 1 12 10 0 1 0 (some key_sample) none).1
      rfl (by decide) (by decide),
    (C12_constructor_cipher_check false 1 12 10 0 2 0 (some key_sample)
      (some key_sample)).2.1 rfl,
    (C12_constructor_cipher_check false 1 12 10 0 0 0 (some key_sample) none).2.2.1
      rfl (Or.inr rfl),
    (C12_constructor_cipher_check false 1 12 10 0 2 0 (some key_sample) none).2.2.2
      rfl rfl rfl⟩

/-- C12 as stated fails when no ciphering key is supplied: with
`ciphering_algorithm = 1` and both key pointers `NULL` the constructor returns
an entity, with `has_ciphering = 0`. -/
theorem C12_counterexample :
    new_nr_pdcp_entity false 1 12 10 0 1 0 none none = some entity12 ∧
    entity12.has_ciphering = false :=
  ⟨by decide, rfl⟩

/-! ## Malformed PDUs -/

/-- C13: for every entity state, a PDU with `size < 1`, or with `size >= 1`,
the top bit of byte 0 set and `size < header_size + 1` (`header_size` 2 for
`sn_size` 12, 3 otherwise) is dropped: `deliver_sdu` is not called and no field
of the entity state changes; a PDU with `size >= 1` whose byte 0 has the top
bit clear ends in `exit(1)` and never in a delivery. -/
theorem C13_malformed_pdu (ks : List Nat → Int → Nat → Nat → Nat → Nat)
    (e : nr_pdcp_entity_t) (buffer : List Nat) :
    (buffer.length < 1 → nr_pdcp_entity_recv_pdu ks e buffer = some (e, [])) ∧
    (1 ≤ buffer.length → byte (buffer.getD 0 0) &&& 0x80 ≠ 0 →
      buffer.length < (if e.sn_size = 12 then 2 else 3) + 1 →
      nr_pdcp_entity_recv_pdu ks e buffer = some (e, [])) ∧
    (1 ≤ buffer.length → byte (buffer.getD 0 0) &&& 0x80 = 0 →
      nr_pdcp_entity_recv_pdu ks e buffer = none) := by
  refine ⟨?_, ?_, ?_⟩
  · intro h
    unfold nr_pdcp_entity_recv_pdu
    simp only []
    rw [if_pos h]
  · intro h1 h2 h3
    unfold nr_pdcp_entity_recv_pdu
    simp only []
    rw [if_neg (by omega), if_neg h2, if_pos (by unfold decode_header_size; omega)]
  · intro h1 h2
    unfold nr_pdcp_entity_recv_pdu
    simp only []
    rw [if_neg (by omega), if_pos h2]

/-- Witness of C13: with a 12-bit SN the empty PDU and the PDUs `80` and
`80 01` are dropped, the PDU `00 01 AA` ends in `exit(1)`. -/
theorem C13_malformed_pdu_witness :
    nr_pdcp_entity_recv_pdu ks0 entity12 [] = some (entity12, []) ∧
    nr_pdcp_entity_recv_pdu ks0 entity12 [0x80] = some (entity12, []) ∧
    nr_pdcp_entity_recv_pdu ks0 entity12 [0x80, 0x01] = some (entity12, []) ∧
    nr_pdcp_entity_recv_pdu ks0 entity12 [0x00, 0x01, 0xAA] = none :=
  ⟨(C13_malformed_pdu ks0 entity12 []).1 (by decide),
    (C13_malformed_pdu ks0 entity12 [0x80]).2.1 (by decide) (by decide) (by decide),
    (C13_malformed_pdu ks0 entity12 [0x80, 0x01]).2.1 (by decide) (by decide) (by decide),
    (C13_malformed_pdu ks0 entity12 [0x00, 0x01, 0xAA]).2.2 (by decide) (by decide)⟩

/-! ## Size accounting -/

theorem sdu_bytes_nil : sdu_bytes [] = 0 := rfl

theorem sdu_bytes_cons (s : nr_pdcp_sdu_t) (l : List nr_pdcp_sdu_t) :
    sdu_bytes (s :: l) = (s.buffer.length : Int) + sdu_bytes l := by
  simp [sdu_bytes]

theorem sdu_bytes_append (a b : List nr_pdcp_sdu_t) :
    sdu_bytes (a ++ b) = sdu_bytes a + sdu_bytes b := by
  simp [sdu_bytes]

theorem sdu_bytes_list_add (l : List nr_pdcp_sdu_t) (sdu : nr_pdcp_sdu_t) :
    sdu_bytes (nr_pdcp_sdu_list_add l sdu) = sdu_bytes l + (sdu.buffer.length : Int) := by
  induction l with
  | nil => simp [nr_pdcp_sdu_list_add, sdu_bytes]
  | cons cur l ih =>
    unfold nr_pdcp_sdu_list_add
    split
    · simp only [sdu_bytes_cons]; omega
    · simp only [sdu_bytes_cons, ih]; omega

theorem sdu_bytes_nonneg (l : List nr_pdcp_sdu_t) : 0 ≤ sdu_bytes l := by
  induction l with
  | nil => simp [sdu_bytes]
  | cons cur l ih => rw [sdu_bytes_cons]; omega

theorem sdu_bytes_eq_zero_iff (l : List nr_pdcp_sdu_t) :
    sdu_bytes l = 0 ↔ ∀ s ∈ l, s.buffer = [] := by
  induction l with
  | nil => simp [sdu_bytes]
  | cons cur l ih =>
    have h := sdu_bytes_nonneg l
    rw [sdu_bytes_cons]
    constructor
    · intro h0 s hs
      have h1 : (cur.buffer.length : Int) = 0 := by omega
      have h2 : sdu_bytes l = 0 := by omega
      rcases List.mem_cons.1 hs with h3 | h3
      · subst h3
        exact List.length_eq_zero.1 (by exact_mod_cast h1)
      · exact ih.1 h2 s h3
    · intro hall
      have h1 := hall cur (List.mem_cons_self _ _)
      have h2 := ih.2 (fun s hs => hall s (List.mem_cons_of_mem _ hs))
      rw [h1, h2]
      rfl

theorem recv_accepted_rx_size (e : nr_pdcp_entity_t) (c : Nat) (p : List Nat) :
    (recv_accepted e c p).1.rx_size =
      if c = e.rx_deliv then
        e.rx_size + (p.length : Int) - sdu_bytes (deliver_contiguous e.rx_deliv
          (nr_pdcp_sdu_list_add e.rx_list (nr_pdcp_new_sdu c p))).delivered
      else e.rx_size + (p.length : Int) := by
  unfold recv_accepted
  simp only []
  split_ifs <;> rfl

theorem recv_accepted_size_ok (e : nr_pdcp_entity_t) (c : Nat) (p : List Nat)
    (h : e.rx_size = sdu_bytes e.rx_list) :
    (recv_accepted e c p).1.rx_size = sdu_bytes (recv_accepted e c p).1.rx_list := by
  have hadd := sdu_bytes_list_add e.rx_list (nr_pdcp_new_sdu c p)
  have hp : (nr_pdcp_new_sdu c p).buffer.length = p.length := rfl
  rw [recv_accepted_rx_size, recv_accepted_rx_list]
  split_ifs
  · have happ := congrArg sdu_bytes (deliver_contiguous_append e.rx_deliv
      (nr_pdcp_sdu_list_add e.rx_list (nr_pdcp_new_sdu c p)))
    rw [sdu_bytes_append] at happ
    omega
  · omega

theorem check_t_reordering_size_ok (e : nr_pdcp_entity_t)
    (h : e.rx_size = sdu_bytes e.rx_list) :
    (check_t_reordering e).1.rx_size = sdu_bytes (check_t_reordering e).1.rx_list := by
  have h1 := congrArg sdu_bytes (deliver_below_append e.rx_reord e.rx_list)
  have h2 := congrArg sdu_bytes (deliver_contiguous_append e.rx_reord
    (deliver_below e.rx_reord e.rx_list).2)
  rw [sdu_bytes_append] at h1 h2
  unfold check_t_reordering
  split
  · exact h
  · simp only []
    split_ifs <;> simp only [] <;> omega

theorem run_size_ok (ks : List Nat → Int → Nat → Nat → Nat → Nat) (cs : List call_t) :
    ∀ (e e1 : nr_pdcp_entity_t), e.rx_size = sdu_bytes e.rx_list →
      (run ks e cs).1 = some e1 → e1.rx_size = sdu_bytes e1.rx_list := by
  induction cs with
  | nil =>
    intro e e1 hI h
    simp [run] at h
    exact h ▸ hI
  | cons c cs ih =>
    intro e e1 hI h
    cases hc : call ks e c with
    | none => rw [run_cons_none ks e c cs hc] at h; simp at h
    | some r =>
      obtain ⟨e2, d⟩ := r
      rw [run_cons ks e e2 c cs d hc] at h
      refine ih e2 e1 ?_ h
      cases c with
      | recv_pdu buffer =>
        rcases recv_pdu_cases ks e e2 buffer d hc with ⟨h1, _⟩ | ⟨_, _, p, h3⟩
        · subst h1; exact hI
        · have := recv_accepted_size_ok e (pdu_count e buffer) p hI
          rw [← h3] at this
          exact this
      | set_time now =>
        have h1 : (e2, d) = check_t_reordering { e with t_current := now % UINT64 } :=
          (Option.some.inj hc).symm
        have := check_t_reordering_size_ok { e with t_current := now % UINT64 } hI
        rw [← h1] at this
        exact this

theorem initial_size (e0 : nr_pdcp_entity_t) (h : is_initial e0) :
    e0.rx_size = 0 ∧ e0.rx_list = [] ∧ e0.t_current = 0 := by
  obtain ⟨g, rb, sn, t, dt, ca, ia, ck, ik, _, h⟩ := h
  unfold new_nr_pdcp_entity at h
  simp only [] at h
  split_ifs at h <;>
  · have h := (Option.some.inj h).symm
    subst h
    exact ⟨rfl, rfl, rfl⟩

/-- C14: in every state reachable from the initial state by any sequence of
`recv_pdu` and `set_time` calls, `rx_size` equals the sum of the payload sizes
of the SDUs currently in `rx_list`, so it is 0 exactly when nothing with a
non-empty payload is buffered. -/
theorem C14_rx_size_accounting (ks : List Nat → Int → Nat → Nat → Nat → Nat)
    (e0 e : nr_pdcp_entity_t) (cs : List call_t) (h0 : is_initial e0)
    (hr : (run ks e0 cs).1 = some e) :
    e.rx_size = (e.rx_list.map fun s => (s.buffer.length : Int)).sum ∧
      (e.rx_size = 0 ↔ ∀ s ∈ e.rx_list, s.buffer = []) := by
  have hi := initial_size e0 h0
  have h : e.rx_size = sdu_bytes e.rx_list :=
    run_size_ok ks cs e0 e (by rw [hi.1, hi.2.1]; rfl) hr
  exact ⟨h, by rw [h]; exact sdu_bytes_eq_zero_iff _⟩

/-- Witness of C14: SN 5 with 3 payload bytes and SN 2 with 1 payload byte are
pending, `rx_size = 4`. -/
theorem C14_rx_size_accounting_witness :
    is_initial entity12 ∧
    (run ks0 entity12 [.set_time 1, .recv_pdu (pdu12 0 [6]), .recv_pdu (pdu12 5 [7, 8, 9]),
        .recv_pdu (pdu12 2 [9])]).1
      = some { entity12 with
          rx_next := 6, rx_deliv := 1, rx_reord := 6, t_current := 1, t_reordering_start := 1,
          rx_list := [⟨2, [9]⟩, ⟨5, [7, 8, 9]⟩], rx_size := 4 } ∧
    (4 : Int) = (([⟨2, [9]⟩, ⟨5, [7, 8, 9]⟩] : List nr_pdcp_sdu_t).map
      fun s => (s.buffer.length : Int)).sum :=
  ⟨entity12_initial, by decide,
    (C14_rx_size_accounting ks0 entity12
      { entity12 with
          rx_next := 6, rx_deliv := 1, rx_reord := 6, t_current := 1, t_reordering_start := 1,
          rx_list := [⟨2, [9]⟩, ⟨5, [7, 8, 9]⟩], rx_size := 4 }
      [.set_time 1, .recv_pdu (pdu12 0 [6]), .recv_pdu (pdu12 5 [7, 8, 9]),
        .recv_pdu (pdu12 2 [9])]
      entity12_initial (by decide)).1⟩

/-! ## The delivery loops -/

theorem recv_pdu_accepted_payload (ks : List Nat → Int → Nat → Nat → Nat → Nat)
    (e : nr_pdcp_entity_t) (buffer : List Nat) (hwf : well_formed_data_pdu e.sn_size buffer)
    (hge : e.rx_deliv ≤ pdu_count e buffer)
    (hnew : ∀ s ∈ e.rx_list, s.count ≠ pdu_count e buffer) :
    nr_pdcp_entity_recv_pdu ks e buffer
      = some (recv_accepted e (pdu_count e buffer) (pdu_payload ks e buffer)) := by
  obtain ⟨h1, h2, h3⟩ := hwf
  have h4 : ¬ (pdu_count e buffer < e.rx_deliv ∨
      nr_pdcp_sdu_in_list e.rx_list (pdu_count e buffer) = true) := by
    rintro (h | h)
    · omega
    · rw [(in_list_false_iff _ _).2 hnew] at h
      exact Bool.false_ne_true h
  unfold nr_pdcp_entity_recv_pdu
  simp only []
  rw [if_neg (by omega), if_neg h2, if_neg (by omega)]
  exact if_neg h4

theorem filter_count_lt_nil (c : Nat) (l : List nr_pdcp_sdu_t) (h : ∀ s ∈ l, c ≤ s.count) :
    l.filter (fun s => decide (s.count < c)) = [] := by
  rw [List.filter_eq_nil_iff]
  intro s hs
  have := h s hs
  simp only [decide_eq_true_eq]
  omega

theorem filter_count_ge_self (c : Nat) (l : List nr_pdcp_sdu_t) (h : ∀ s ∈ l, c ≤ s.count) :
    l.filter (fun s => decide (c ≤ s.count)) = l := by
  rw [List.filter_eq_self]
  intro s hs
  simpa using h s hs

/-- The loop "deliver all SDUs starting from `count` up to discontinuity or end
of list", on an ascending list at or above `c`, delivers the SDUs with COUNTs
`c, c+1, ..., m-1` and leaves the rest, `m` being the first missing COUNT. -/
theorem deliver_contiguous_spec (l : List nr_pdcp_sdu_t) :
    ∀ (c m : Nat), ascending l → (∀ s ∈ l, c ≤ s.count) → first_missing c m l →
      (deliver_contiguous c l).delivered = l.filter (fun s => decide (s.count < m)) ∧
      (deliver_contiguous c l).rest = l.filter (fun s => decide (m ≤ s.count)) ∧
      (deliver_contiguous c l).count = m ∧
      (deliver_contiguous c l).delivered.map nr_pdcp_sdu_t.count = List.range' c (m - c) := by
  induction l with
  | nil =>
    intro c m _ _ hm
    obtain ⟨h1, _, _, h4⟩ := hm
    have hmc : m = c := by
      by_contra hne
      obtain ⟨s, hs, _⟩ := h4 c (le_refl _) (by omega)
      simp at hs
    subst hmc
    simp [deliver_contiguous]
  | cons cur l ih =>
    intro c m hasc hge hm
    obtain ⟨h1, h2, h3, h4⟩ := hm
    have hasc2 := hasc
    unfold ascending at hasc2
    rw [List.pairwise_cons] at hasc2
    have hcur := hge cur (List.mem_cons_self _ _)
    unfold deliver_contiguous
    split
    · rename_i heq
      have hne : m ≠ c := fun h => h3 cur (List.mem_cons_self _ _) (by omega)
      have hmod : (c + 1) % UINT32 = c + 1 := Nat.mod_eq_of_lt (by omega)
      rw [hmod]
      have hfm : first_missing (c + 1) m l := by
        refine ⟨by omega, h2, fun s hs => h3 s (List.mem_cons_of_mem _ hs), ?_⟩
        intro k hk1 hk2
        obtain ⟨s, hs, hsk⟩ := h4 k (by omega) hk2
        rcases List.mem_cons.1 hs with h | h
        · subst h; omega
        · exact ⟨s, h, hsk⟩
      obtain ⟨i1, i2, i3, i4⟩ := ih (c + 1) m hasc2.2
        (fun s hs => by have := hasc2.1 s hs; omega) hfm
      have hlt : decide (cur.count < m) = true := by simp; omega
      have hnle : decide (m ≤ cur.count) = false := by simp; omega
      refine ⟨?_, ?_, i3, ?_⟩
      · simp only [List.filter_cons, hlt, if_true, i1]
      · simp only [List.filter_cons, hnle, i2]
        simp
      · simp only [List.map_cons, i4]
        have : m - c = (m - (c + 1)) + 1 := by omega
        rw [this, List.range'_succ, heq]
    · rename_i hneq
      have hgt : c < cur.count := by omega
      have hall : ∀ s ∈ cur :: l, c + 1 ≤ s.count := by
        intro s hs
        rcases List.mem_cons.1 hs with h | h
        · subst h; omega
        · have := hasc2.1 s h; omega
      have hmc : m = c := by
        by_contra hne
        obtain ⟨s, hs, hsk⟩ := h4 c (le_refl _) (by omega)
        have := hall s hs
        omega
      subst hmc
      refine ⟨?_, ?_, rfl, by simp⟩
      · exact (filter_count_lt_nil m _ (fun s hs => by have := hall s hs; omega)).symm
      · exact (filter_count_ge_self m _ (fun s hs => by have := hall s hs; omega)).symm

/-- The loop "deliver all SDUs with count < rx_reord", on an ascending list,
delivers exactly the SDUs with COUNT below `rx_reord`. -/
theorem deliver_below_spec (r : Nat) (l : List nr_pdcp_sdu_t) (hasc : ascending l) :
    (deliver_below r l).1 = l.filter (fun s => decide (s.count < r)) ∧
    (deliver_below r l).2 = l.filter (fun s => decide (r ≤ s.count)) := by
  induction l with
  | nil => simp [deliver_below]
  | cons cur l ih =>
    have hasc2 := hasc
    unfold ascending at hasc2
    rw [List.pairwise_cons] at hasc2
    obtain ⟨i1, i2⟩ := ih hasc2.2
    unfold deliver_below
    split
    · rename_i hlt
      have h1 : decide (cur.count < r) = true := by simpa using hlt
      have h2 : decide (r ≤ cur.count) = false := by simp; omega
      refine ⟨?_, ?_⟩
      · simp only [List.filter_cons, h1, if_true, i1]
      · simp only [List.filter_cons, h2, i2]
        simp
    · rename_i hge
      have hall : ∀ s ∈ cur :: l, r ≤ s.count := by
        intro s hs
        rcases List.mem_cons.1 hs with h | h
        · subst h; omega
        · have := hasc2.1 s h; omega
      exact ⟨(filter_count_lt_nil r _ hall).symm, (filter_count_ge_self r _ hall).symm⟩

/-- C15: for every state whose `rx_list` is strictly ascending with all COUNTs
`>= rx_deliv`, and every accepted PDU (well formed, not already in `rx_list`)
whose inferred `rcvd_count` equals `rx_deliv`, `recv_pdu` delivers, in
ascending order, exactly the SDUs with COUNTs `rx_deliv, rx_deliv+1, ..., m-1`,
where `m` is the smallest COUNT `>= rx_deliv` not present in `rx_list` after
the insertion; it removes exactly those SDUs from `rx_list`, sets
`rx_deliv = m`, and sets `rx_next` to `max(old rx_next, rcvd_count + 1)`. When
the accepted PDU has `rcvd_count != rx_deliv` it delivers nothing and leaves
`rx_deliv` unchanged. -/
theorem C15_in_order_delivery (ks : List Nat → Int → Nat → Nat → Nat → Nat)
    (e e1 : nr_pdcp_entity_t) (buffer : List Nat) (d : List nr_pdcp_sdu_t) (m : Nat)
    (hasc : ascending e.rx_list) (habove : ∀ s ∈ e.rx_list, e.rx_deliv ≤ s.count)
    (hwf : well_formed_data_pdu e.sn_size buffer)
    (hge : e.rx_deliv ≤ pdu_count e buffer)
    (hnew : ∀ s ∈ e.rx_list, s.count ≠ pdu_count e buffer)
    (h1 : nr_pdcp_entity_recv_pdu ks e buffer = some (e1, d)) :
    (pdu_count e buffer = e.rx_deliv →
      first_missing e.rx_deliv m
        (nr_pdcp_sdu_list_add e.rx_list
          (nr_pdcp_new_sdu (pdu_count e buffer) (pdu_payload ks e buffer))) →
      d = (nr_pdcp_sdu_list_add e.rx_list
            (nr_pdcp_new_sdu (pdu_count e buffer) (pdu_payload ks e buffer))).filter
              (fun s => decide (s.count < m)) ∧
        d.map nr_pdcp_sdu_t.count = List.range' e.rx_deliv (m - e.rx_deliv) ∧
        e1.rx_list = (nr_pdcp_sdu_list_add e.rx_list
            (nr_pdcp_new_sdu (pdu_count e buffer) (pdu_payload ks e buffer))).filter
              (fun s => decide (m ≤ s.count)) ∧
        e1.rx_deliv = m ∧
        e1.rx_next = max e.rx_next (pdu_count e buffer + 1)) ∧
    (pdu_count e buffer ≠ e.rx_deliv → d = [] ∧ e1.rx_deliv = e.rx_deliv) := by
  rw [recv_pdu_accepted_payload ks e buffer hwf hge hnew] at h1
  have h2 : recv_accepted e (pdu_count e buffer) (pdu_payload ks e buffer) = (e1, d) :=
    Option.some.inj h1
  have hd : (recv_accepted e (pdu_count e buffer) (pdu_payload ks e buffer)).2 = d := by rw [h2]
  have he : (recv_accepted e (pdu_count e buffer) (pdu_payload ks e buffer)).1 = e1 := by
    rw [h2]
  refine ⟨?_, ?_⟩
  · intro heq hm
    have hasc1 := ascending_list_add e.rx_list
      (nr_pdcp_new_sdu (pdu_count e buffer) (pdu_payload ks e buffer)) hasc hnew
    have hab1 : ∀ s ∈ nr_pdcp_sdu_list_add e.rx_list
        (nr_pdcp_new_sdu (pdu_count e buffer) (pdu_payload ks e buffer)),
        e.rx_deliv ≤ s.count := by
      intro s hs
      rcases (mem_list_add _ _ _).1 hs with h | h
      · subst h; exact hge
      · exact habove s h
    obtain ⟨s1, s2, s3, s4⟩ := deliver_contiguous_spec _ e.rx_deliv m hasc1 hab1 hm
    have hmgt : pdu_count e buffer < m := by
      obtain ⟨m1, _, m3, _⟩ := hm
      have := m3 _ ((mem_list_add _ _ _).2 (Or.inl rfl))
      have hc : (nr_pdcp_new_sdu (pdu_count e buffer) (pdu_payload ks e buffer)).count
          = pdu_count e buffer := rfl
      omega
    have hmU : m < UINT32 := hm.2.1
    refine ⟨?_, ?_, ?_, ?_, ?_⟩
    · rw [← hd, recv_accepted_delivered, if_pos heq, s1]
    · rw [← hd, recv_accepted_delivered, if_pos heq, s4]
    · rw [← he, recv_accepted_rx_list, if_pos heq, s2]
    · rw [← he, recv_accepted_rx_deliv, if_pos heq, s3]
    · rw [← he, recv_accepted_rx_next]
      have hmod : (pdu_count e buffer + 1) % UINT32 = pdu_count e buffer + 1 :=
        Nat.mod_eq_of_lt (by omega)
      rw [hmod]
      split_ifs with hc
      · exact (max_eq_right (by omega)).symm
      · exact (max_eq_left (by omega)).symm
  · intro hne
    refine ⟨?_, ?_⟩
    · rw [← hd, recv_accepted_delivered, if_neg hne]
    · rw [← he, recv_accepted_rx_deliv, if_neg hne]

/-- Witness of C15: from the initial state a PDU with SN 0 and payload `0xAA`
gives one delivery of `0xAA`, `rx_deliv = 1`, `rx_next = 1`, timer disarmed;
here `m = 1`. -/
theorem C15_in_order_delivery_witness :
    nr_pdcp_entity_recv_pdu ks0 entity12 (pdu12 0 [0xAA])
      = some ({ entity12 with rx_next := 1, rx_deliv := 1, t_reordering_start := 0 },
          [⟨0, [0xAA]⟩]) ∧
    first_missing 0 1 [⟨0, [0xAA]⟩] ∧
    ([⟨0, [0xAA]⟩] : List nr_pdcp_sdu_t)
      = (nr_pdcp_sdu_list_add entity12.rx_list
          (nr_pdcp_new_sdu (pdu_count entity12 (pdu12 0 [0xAA]))
            (pdu_payload ks0 entity12 (pdu12 0 [0xAA])))).filter
              (fun s => decide (s.count < 1)) ∧
    ([⟨0, [0xAA]⟩] : List nr_pdcp_sdu_t).map nr_pdcp_sdu_t.count = List.range' 0 (1 - 0) ∧
    (1 : Nat) = max 0 (pdu_count entity12 (pdu12 0 [0xAA]) + 1) := by
  have hm : first_missing 0 1 [⟨0, [0xAA]⟩] := by
    refine ⟨by decide, by decide, by decide, ?_⟩
    intro k _ hk
    have hk0 : k = 0 := by omega
    subst hk0
    exact ⟨_, List.mem_singleton.2 rfl, rfl⟩
  have h := (C15_in_order_delivery ks0 entity12
    { entity12 with rx_next := 1, rx_deliv := 1, t_reordering_start := 0 }
    (pdu12 0 [0xAA]) [⟨0, [0xAA]⟩] 1 (by decide) (by decide) (by decide) (by decide)
    (by decide) (by decide)).1 (by decide) hm
  exact ⟨by decide, hm, h.1, h.2.1, h.2.2.2.2⟩

theorem first_missing_filter (r m : Nat) (l : List nr_pdcp_sdu_t) (h : first_missing r m l) :
    first_missing r m (l.filter (fun s => decide (r ≤ s.count))) := by
  obtain ⟨h1, h2, h3, h4⟩ := h
  refine ⟨h1, h2, fun s hs => h3 s (List.mem_filter.1 hs).1, ?_⟩
  intro k hk1 hk2
  obtain ⟨s, hs, hsk⟩ := h4 k hk1 hk2
  exact ⟨s, List.mem_filter.2 ⟨hs, by simp; omega⟩, hsk⟩

theorem filter_ge_filter_ge (r m : Nat) (l : List nr_pdcp_sdu_t) (h : r ≤ m) :
    (l.filter (fun s => decide (r ≤ s.count))).filter (fun s => decide (m ≤ s.count))
      = l.filter (fun s => decide (m ≤ s.count)) := by
  rw [List.filter_filter]
  apply List.filter_congr
  intro s _
  by_cases hs : m ≤ s.count
  · simp [hs]; omega
  · simp [hs]

/-- The expiry branch of `check_t_reordering` in full. -/
theorem check_t_reordering_expired_eq (e : nr_pdcp_entity_t) (harm : e.t_reordering_start ≠ 0)
    (hexp : ¬ (e.t_current : Int)
      ≤ ((e.t_reordering_start : Int) + e.t_reordering) % (UINT64 : Int)) :
    check_t_reordering e =
      (if (deliver_contiguous e.rx_reord (deliver_below e.rx_reord e.rx_list).2).count
            < e.rx_next then
          { e with
            t_reordering_start := e.t_current
            rx_list := (deliver_contiguous e.rx_reord (deliver_below e.rx_reord e.rx_list).2).rest
            rx_size := e.rx_size - sdu_bytes (deliver_below e.rx_reord e.rx_list).1
              - sdu_bytes
                (deliver_contiguous e.rx_reord (deliver_below e.rx_reord e.rx_list).2).delivered
            rx_deliv :=
              (deliver_contiguous e.rx_reord (deliver_below e.rx_reord e.rx_list).2).count
            rx_reord := e.rx_next }
        else
          { e with
            t_reordering_start := 0
            rx_list := (deliver_contiguous e.rx_reord (deliver_below e.rx_reord e.rx_list).2).rest
            rx_size := e.rx_size - sdu_bytes (deliver_below e.rx_reord e.rx_list).1
              - sdu_bytes
                (deliver_contiguous e.rx_reord (deliver_below e.rx_reord e.rx_list).2).delivered
            rx_deliv :=
              (deliver_contiguous e.rx_reord (deliver_below e.rx_reord e.rx_list).2).count },
        (deliver_below e.rx_reord e.rx_list).1 ++
          (deliver_contiguous e.rx_reord (deliver_below e.rx_reord e.rx_list).2).delivered) := by
  have h : ¬ (e.t_reordering_start = 0 ∨ (e.t_current : Int)
      ≤ ((e.t_reordering_start : Int) + e.t_reordering) % (UINT64 : Int)) := by
    rintro (h | h)
    · exact harm h
    · exact hexp h
  unfold check_t_reordering
  rw [if_neg h]

/-- C16 (amended): for every state with `t_reordering_start != 0` and strictly
ascending `rx_list`, if `now > t_reordering_start + t_reordering`, the sum
taken modulo `2^64` as the code computes it, then `set_time(now)` delivers, in
ascending COUNT order, exactly every pending SDU with COUNT `< rx_reord`
followed by the SDUs with COUNTs `rx_reord, rx_reord+1, ..., m-1` where `m` is
the smallest COUNT `>= rx_reord` not in `rx_list`; removes exactly those from
`rx_list`; sets `rx_deliv = m`; and afterwards the timer is re-armed with
`rx_reord = rx_next` and `t_reordering_start = now` if `m < rx_next`, and
disarmed (`t_reordering_start = 0`) otherwise. If instead the timer is disarmed
or `now` is at most that sum modulo `2^64`, `set_time(now)` delivers nothing
and changes no field except `t_current`. -/
theorem C16_expiry_action (e : nr_pdcp_entity_t) (now m : Nat) (hnow : now < UINT64) :
    (e.t_reordering_start ≠ 0 → ascending e.rx_list →
      ((e.t_reordering_start : Int) + e.t_reordering) % (UINT64 : Int) < (now : Int) →
      first_missing e.rx_reord m e.rx_list →
      (nr_pdcp_entity_set_time e now).2
          = e.rx_list.filter (fun s => decide (s.count < e.rx_reord)) ++
            (e.rx_list.filter (fun s => decide (e.rx_reord ≤ s.count))).filter
              (fun s => decide (s.count < m)) ∧
        ((e.rx_list.filter (fun s => decide (e.rx_reord ≤ s.count))).filter
            (fun s => decide (s.count < m))).map nr_pdcp_sdu_t.count
          = List.range' e.rx_reord (m - e.rx_reord) ∧
        ascending (nr_pdcp_entity_set_time e now).2 ∧
        (nr_pdcp_entity_set_time e now).1.rx_list
          = e.rx_list.filter (fun s => decide (m ≤ s.count)) ∧
        (nr_pdcp_entity_set_time e now).1.rx_deliv = m ∧
        (m < e.rx_next →
          (nr_pdcp_entity_set_time e now).1.rx_reord = e.rx_next ∧
          (nr_pdcp_entity_set_time e now).1.t_reordering_start = now) ∧
        (¬ m < e.rx_next → (nr_pdcp_entity_set_time e now).1.t_reordering_start = 0)) ∧
    (e.t_reordering_start = 0 ∨
        (now : Int) ≤ ((e.t_reordering_start : Int) + e.t_reordering) % (UINT64 : Int) →
      nr_pdcp_entity_set_time e now = ({ e with t_current := now }, [])) := by
  have hmod : now % UINT64 = now := Nat.mod_eq_of_lt hnow
  unfold nr_pdcp_entity_set_time
  rw [hmod]
  refine ⟨?_, ?_⟩
  · intro harm hasc hexp hm
    have hexp2 : ¬ (({ e with t_current := now } : nr_pdcp_entity_t).t_current : Int)
        ≤ ((({ e with t_current := now } : nr_pdcp_entity_t).t_reordering_start : Int)
            + ({ e with t_current := now } : nr_pdcp_entity_t).t_reordering)
          % (UINT64 : Int) := by
      simp only []
      omega
    rw [check_t_reordering_expired_eq { e with t_current := now } harm hexp2]
    simp only []
    obtain ⟨b1, b2⟩ := deliver_below_spec e.rx_reord e.rx_list hasc
    have happ := deliver_below_append e.rx_reord e.rx_list
    have hasc2 : ascending (deliver_below e.rx_reord e.rx_list).2 :=
      ascending_append_right happ hasc
    have hge2 := deliver_below_ge e.rx_reord e.rx_list hasc
    have hm2 : first_missing e.rx_reord m (deliver_below e.rx_reord e.rx_list).2 := by
      rw [b2]; exact first_missing_filter _ _ _ hm
    obtain ⟨s1, s2, s3, s4⟩ := deliver_contiguous_spec _ e.rx_reord m hasc2 hge2 hm2
    have happ2 := deliver_contiguous_append e.rx_reord (deliver_below e.rx_reord e.rx_list).2
    have hdel : ascending ((deliver_below e.rx_reord e.rx_list).1 ++
        (deliver_contiguous e.rx_reord (deliver_below e.rx_reord e.rx_list).2).delivered) := by
      have h := hasc
      rw [← happ, ← happ2, ← List.append_assoc] at h
      exact ascending_append_left rfl h
    have hrest : (deliver_contiguous e.rx_reord (deliver_below e.rx_reord e.rx_list).2).rest
        = e.rx_list.filter (fun s => decide (m ≤ s.count)) := by
      rw [s2, b2]; exact filter_ge_filter_ge _ _ _ hm.1
    have hdeld : (deliver_below e.rx_reord e.rx_list).1 ++
        (deliver_contiguous e.rx_reord (deliver_below e.rx_reord e.rx_list).2).delivered
        = e.rx_list.filter (fun s => decide (s.count < e.rx_reord)) ++
          (e.rx_list.filter (fun s => decide (e.rx_reord ≤ s.count))).filter
            (fun s => decide (s.count < m)) := by
      rw [s1, b1, b2]
    have hcnt : ((e.rx_list.filter (fun s => decide (e.rx_reord ≤ s.count))).filter
          (fun s => decide (s.count < m))).map nr_pdcp_sdu_t.count
        = List.range' e.rx_reord (m - e.rx_reord) := by
      rw [← b2, ← s1]; exact s4
    refine ⟨hdeld, hcnt, hdel, ?_, ?_, ?_, ?_⟩
    · split_ifs <;> exact hrest
    · split_ifs <;> exact s3
    · intro hlt
      rw [if_pos (by rw [s3]; exact hlt)]
      exact ⟨rfl, rfl⟩
    · intro hnlt
      rw [if_neg (by rw [s3]; exact hnlt)]
  · intro h
    exact check_t_reordering_idle _ h

/-- Witness of C16 (amended): with the COUNTs 1, 2, 3, 5 pending, `rx_reord = 2`,
`rx_next = 6` and the timer running since time 1, `set_time(12)` delivers COUNT
1, then COUNTs 2 and 3 (`m = 4`), leaves COUNT 5, sets `rx_deliv = 4` and
re-arms the timer at 12 with `rx_reord = 6`; `set_time(11)` changes only
`t_current`. -/
theorem C16_expiry_action_witness :
    (run ks0 entity12 [.set_time 1, .recv_pdu (pdu12 1 [7]), .recv_pdu (pdu12 5 [8]),
        .recv_pdu (pdu12 3 [9]), .recv_pdu (pdu12 2 [6])]).1
      = some { entity12 with
          rx_next := 6, rx_reord := 2, t_current := 1, t_reordering_start := 1,
          rx_list := [⟨1, [7]⟩, ⟨2, [6]⟩, ⟨3, [9]⟩, ⟨5, [8]⟩], rx_size := 4 } ∧
    first_missing 2 4 [⟨1, [7]⟩, ⟨2, [6]⟩, ⟨3, [9]⟩, ⟨5, [8]⟩] ∧
    nr_pdcp_entity_set_time { entity12 with
        rx_next := 6, rx_reord := 2, t_current := 1, t_reordering_start := 1,
        rx_list := [⟨1, [7]⟩, ⟨2, [6]⟩, ⟨3, [9]⟩, ⟨5, [8]⟩], rx_size := 4 } 12
      = ({ entity12 with
          rx_next := 6, rx_deliv := 4, rx_reord := 6, t_current := 12, t_reordering_start := 12,
          rx_list := [⟨5, [8]⟩], rx_size := 1 },
          [⟨1, [7]⟩, ⟨2, [6]⟩, ⟨3, [9]⟩]) ∧
    (nr_pdcp_entity_set_time { entity12 with
        rx_next := 6, rx_reord := 2, t_current := 1, t_reordering_start := 1,
        rx_list := [⟨1, [7]⟩, ⟨2, [6]⟩, ⟨3, [9]⟩, ⟨5, [8]⟩], rx_size := 4 } 12).1.rx_deliv = 4 ∧
    nr_pdcp_entity_set_time { entity12 with
        rx_next := 6, rx_reord := 2, t_current := 1, t_reordering_start := 1,
        rx_list := [⟨1, [7]⟩, ⟨2, [6]⟩, ⟨3, [9]⟩, ⟨5, [8]⟩], rx_size := 4 } 11
      = ({ entity12 with
          rx_next := 6, rx_reord := 2, t_current := 11, t_reordering_start := 1,
          rx_list := [⟨1, [7]⟩, ⟨2, [6]⟩, ⟨3, [9]⟩, ⟨5, [8]⟩], rx_size := 4 }, []) := by
  have hm : first_missing 2 4 [⟨1, [7]⟩, ⟨2, [6]⟩, ⟨3, [9]⟩, ⟨5, [8]⟩] := by
    refine ⟨by decide, by decide, by decide, ?_⟩
    intro k hk1 hk2
    interval_cases k
    · exact ⟨⟨2, [6]⟩, by decide, rfl⟩
    · exact ⟨⟨3, [9]⟩, by decide, rfl⟩
  exact ⟨by decide, hm, by decide,
    ((C16_expiry_action { entity12 with
        rx_next := 6, rx_reord := 2, t_current := 1, t_reordering_start := 1,
        rx_list := [⟨1, [7]⟩, ⟨2, [6]⟩, ⟨3, [9]⟩, ⟨5, [8]⟩], rx_size := 4 } 12 4
      (by decide)).1 (by decide) (by decide) (by decide) hm).2.2.2.2.1,
    (C16_expiry_action { entity12 with
        rx_next := 6, rx_reord := 2, t_current := 1, t_reordering_start := 1,
        rx_list := [⟨1, [7]⟩, ⟨2, [6]⟩, ⟨3, [9]⟩, ⟨5, [8]⟩], rx_size := 4 } 11 4
      (by decide)).2 (Or.inr (by decide))⟩

/-- C16 as stated fails when `t_reordering_start + t_reordering` passes
`2^64`: in the state reached from the initial state by `set_time(1)`, SN 1,
SN 3, `set_time(2^64 - 1)`, the timer runs since `2^64 - 1` with
`t_reordering = 10`, so `now = 2^64 - 1` is below
`t_reordering_start + t_reordering`; but the code compares with the wrapped sum
9, and `set_time(now)` delivers COUNT 3, moves `rx_deliv` and stops the
timer. -/
theorem C16_counterexample :
    (run ks0 entity12 [.set_time 1, .recv_pdu (pdu12 1 [7]), .recv_pdu (pdu12 3 [9]),
        .set_time 18446744073709551615]).1
      = some { entity12 with
          rx_next := 4, rx_deliv := 2, rx_reord := 4, t_current := 18446744073709551615,
          t_reordering_start := 18446744073709551615,
          rx_list := [⟨3, [9]⟩], rx_size := 1 } ∧
    ((18446744073709551615 : Int) ≤ 18446744073709551615 + 10) ∧
    nr_pdcp_entity_set_time { entity12 with
        rx_next := 4, rx_deliv := 2, rx_reord := 4, t_current := 18446744073709551615,
        t_reordering_start := 18446744073709551615,
        rx_list := [⟨3, [9]⟩], rx_size := 1 } 18446744073709551615
      = ({ entity12 with
          rx_next := 4, rx_deliv := 4, rx_reord := 4, t_current := 18446744073709551615 },
          [⟨3, [9]⟩]) :=
  ⟨by decide, by decide, by decide⟩

/-! ## Stopping the timer -/

/-- C17, the code at the failing input: at host time 1, SN 1 arms the timer
with `rx_reord = 2`; SN 0 then delivers both SDUs, `rx_deliv = 2 = rx_reord`
and `rx_deliv = rx_next`, yet the test `rx_deliv > rx_reord` does not stop the
timer: `t_reordering_start` is still 1. -/
theorem C17_code_at_failing_input :
    is_initial entity12 ∧
    run ks0 entity12 [.set_time 1, .recv_pdu (pdu12 1 [0xBB])]
      = (some { entity12 with
          rx_next := 2, rx_reord := 2, t_current := 1, t_reordering_start := 1,
          rx_list := [⟨1, [0xBB]⟩], rx_size := 1 }, []) ∧
    nr_pdcp_entity_recv_pdu ks0
        { entity12 with
          rx_next := 2, rx_reord := 2, t_current := 1, t_reordering_start := 1,
          rx_list := [⟨1, [0xBB]⟩], rx_size := 1 } (pdu12 0 [0xAA])
      = some ({ entity12 with
          rx_next := 2, rx_deliv := 2, rx_reord := 2, t_current := 1, t_reordering_start := 1 },
          [⟨0, [0xAA]⟩, ⟨1, [0xBB]⟩]) :=
  ⟨entity12_initial, by decide, by decide⟩

/-! ## Pending SDUs and the timer -/

theorem recv_accepted_timer (e : nr_pdcp_entity_t) (c : Nat) (p : List Nat)
    (ht : e.t_current ≠ 0)
    (h : (recv_accepted e c p).1.rx_deliv < (recv_accepted e c p).1.rx_next) :
    (recv_accepted e c p).1.t_reordering_start ≠ 0 := by
  revert h
  unfold recv_accepted
  simp only []
  split_ifs <;> simp_all <;> omega

theorem recv_accepted_pending (e : nr_pdcp_entity_t) (c : Nat) (p : List Nat)
    (hI : rx_invariant e) (hP : pending_invariant e) (hge : e.rx_deliv ≤ c)
    (hnew : ∀ s ∈ e.rx_list, s.count ≠ c) (hc : c < UINT32 - 1) (ht : e.t_current ≠ 0) :
    pending_invariant (recv_accepted e c p).1 := by
  have hI1 := (recv_accepted_invariant e c p hI hge hnew (by omega)).1
  have hmod : (c + 1) % UINT32 = c + 1 := Nat.mod_eq_of_lt (by omega)
  have hbelow : ∀ s ∈ (recv_accepted e c p).1.rx_list,
      s.count < (recv_accepted e c p).1.rx_next := by
    intro s hs
    have hs1 : s ∈ nr_pdcp_sdu_list_add e.rx_list (nr_pdcp_new_sdu c p) := by
      rw [recv_accepted_rx_list] at hs
      split_ifs at hs
      · exact deliver_contiguous_rest_mem _ _ s hs
      · exact hs
    rw [recv_accepted_rx_next, hmod]
    rcases (mem_list_add _ _ _).1 hs1 with h | h
    · subst h
      have hcc : (nr_pdcp_new_sdu c p).count = c := rfl
      split_ifs <;> omega
    · have := hP.below s h
      split_ifs <;> omega
  refine ⟨hbelow, ?_⟩
  intro hne
  obtain ⟨s, hs⟩ := List.exists_mem_of_ne_nil _ hne
  have h1 := hI1.above s hs
  have h2 := hbelow s hs
  exact recv_accepted_timer e c p ht (by omega)

theorem check_t_reordering_pending (e : nr_pdcp_entity_t) (hI : rx_invariant e)
    (hP : pending_invariant e) : pending_invariant (check_t_reordering e).1 := by
  have hI1 := (check_t_reordering_invariant e hI).1
  by_cases h : e.t_reordering_start = 0 ∨ (e.t_current : Int)
      ≤ ((e.t_reordering_start : Int) + e.t_reordering) % (UINT64 : Int)
  · rw [check_t_reordering_idle e h]
    exact hP
  · have harm : e.t_reordering_start ≠ 0 := fun h0 => h (Or.inl h0)
    have hexp : ¬ (e.t_current : Int)
        ≤ ((e.t_reordering_start : Int) + e.t_reordering) % (UINT64 : Int) :=
      fun h0 => h (Or.inr h0)
    have hpos : e.t_current ≠ 0 := by
      intro h0
      apply hexp
      rw [h0]
      exact Int.emod_nonneg _ (by norm_num [UINT64])
    have hbelow : ∀ s ∈ (check_t_reordering e).1.rx_list,
        s.count < (check_t_reordering e).1.rx_next := by
      intro s hs
      rw [check_t_reordering_expired_eq e harm hexp] at hs ⊢
      simp only [] at hs ⊢
      have hs1 : s ∈ e.rx_list := by
        split_ifs at hs <;>
          exact deliver_below_snd_mem _ _ s (deliver_contiguous_rest_mem _ _ s hs)
      have := hP.below s hs1
      split_ifs <;> exact this
    refine ⟨hbelow, ?_⟩
    intro hne
    obtain ⟨s, hs⟩ := List.exists_mem_of_ne_nil _ hne
    have h1 := hI1.above s hs
    have h2 := hbelow s hs
    have h3 : (check_t_reordering e).1.rx_deliv < (check_t_reordering e).1.rx_next := by omega
    revert h3
    rw [check_t_reordering_expired_eq e harm hexp]
    simp only []
    split_ifs with hlt
    · intro _; exact hpos
    · intro h3; exact absurd h3 hlt

theorem run_pending (ks : List Nat → Int → Nat → Nat → Nat → Nat) (cs : List call_t) :
    ∀ (e e1 : nr_pdcp_entity_t), rx_invariant e → pending_invariant e →
      no_max_count ks e cs = true → host_time_nonzero ks e cs = true →
      (run ks e cs).1 = some e1 → pending_invariant e1 := by
  induction cs with
  | nil =>
    intro e e1 _ hP _ _ h
    simp [run] at h
    exact h ▸ hP
  | cons c cs ih =>
    intro e e1 hI hP hn ht h
    cases hc : call ks e c with
    | none => rw [run_cons_none ks e c cs hc] at h; simp at h
    | some r =>
      obtain ⟨e2, d⟩ := r
      rw [run_cons ks e e2 c cs d hc] at h
      simp only [no_max_count, hc, Bool.and_eq_true] at hn
      simp only [host_time_nonzero, hc, Bool.and_eq_true] at ht
      refine ih e2 e1 (call_invariant ks e e2 c d hI hc).1 ?_ hn.2 ht.2 h
      cases c with
      | recv_pdu buffer =>
        rcases recv_pdu_cases ks e e2 buffer d hc with ⟨h1, _⟩ | ⟨hge, hnew, p, h3⟩
        · subst h1; exact hP
        · have hne : pdu_count e buffer ≠ UINT32 - 1 := by simpa using hn.1
          have hlt := pdu_count_lt e buffer
          have htc : e.t_current ≠ 0 := by simpa using ht.1
          have := recv_accepted_pending e (pdu_count e buffer) p hI hP hge hnew (by omega) htc
          rw [← h3] at this
          exact this
      | set_time now =>
        have h1 : (e2, d) = check_t_reordering { e with t_current := now % UINT64 } :=
          (Option.some.inj hc).symm
        have := check_t_reordering_pending { e with t_current := now % UINT64 }
          ⟨hI.sorted, hI.above, hI.bound, hI.reord⟩ ⟨hP.below, hP.armed⟩
        rw [← h1] at this
        exact this

/-- C18 (amended): in every state reachable from the initial state by a
sequence of `recv_pdu` and `set_time` calls in which the host time is non-zero
whenever `recv_pdu` is called and no PDU is inferred the COUNT `0xFFFFFFFF`,
if `rx_list` is non-empty after an operation returns then t-Reordering is
armed (`t_reordering_start != 0`). -/
theorem C18_pending_implies_timer (ks : List Nat → Int → Nat → Nat → Nat → Nat)
    (e0 e : nr_pdcp_entity_t) (cs : List call_t) (h0 : is_initial e0)
    (ht : host_time_nonzero ks e0 cs = true) (hn : no_max_count ks e0 cs = true)
    (hr : (run ks e0 cs).1 = some e) (hne : e.rx_list ≠ []) :
    e.t_reordering_start ≠ 0 := by
  have hi := initial_invariant e0 h0
  have hs := initial_size e0 h0
  have hP0 : pending_invariant e0 :=
    ⟨by rw [hs.2.1]; simp, fun h => absurd hs.2.1 h⟩
  exact (run_pending ks cs e0 e hi.1 hP0 hn ht hr).armed hne

/-- Witness of C18 (amended): after `set_time(1)`, SN 0, SN 2, the timer expiry
at time 12 and SN 5, COUNT 5 is pending and the timer runs since time 12. -/
theorem C18_pending_implies_timer_witness :
    is_initial entity12 ∧
    host_time_nonzero ks0 entity12 [.set_time 1, .recv_pdu (pdu12 0 [6]),
      .recv_pdu (pdu12 2 [7]), .set_time 12, .recv_pdu (pdu12 5 [9])] = true ∧
    no_max_count ks0 entity12 [.set_time 1, .recv_pdu (pdu12 0 [6]),
      .recv_pdu (pdu12 2 [7]), .set_time 12, .recv_pdu (pdu12 5 [9])] = true ∧
    (run ks0 entity12 [.set_time 1, .recv_pdu (pdu12 0 [6]),
      .recv_pdu (pdu12 2 [7]), .set_time 12, .recv_pdu (pdu12 5 [9])]).1
      = some { entity12 with
          rx_next := 6, rx_deliv := 3, rx_reord := 6, t_current := 12, t_reordering_start := 12,
          rx_list := [⟨5, [9]⟩], rx_size := 1 } ∧
    (12 : Nat) ≠ 0 :=
  ⟨entity12_initial, by decide, by decide, by decide,
    C18_pending_implies_timer ks0 entity12
      { entity12 with
          rx_next := 6, rx_deliv := 3, rx_reord := 6, t_current := 12, t_reordering_start := 12,
          rx_list := [⟨5, [9]⟩], rx_size := 1 }
      [.set_time 1, .recv_pdu (pdu12 0 [6]), .recv_pdu (pdu12 2 [7]), .set_time 12,
        .recv_pdu (pdu12 5 [9])]
      entity12_initial (by decide) (by decide) (by decide) (by decide)⟩

/-- C18 as stated fails: at host time 1 a PDU with SN 4095 is inferred the
COUNT `0xFFFFFFFF` and buffered, `rx_next` wraps to 0, `rx_deliv < rx_next` is
false and the timer is not armed: the SDU stays in `rx_list` with
`t_reordering_start = 0`. -/
theorem C18_counterexample :
    is_initial entity12 ∧
    host_time_nonzero ks0 entity12 [.set_time 1, .recv_pdu (pdu12 4095 [9])] = true ∧
    (run ks0 entity12 [.set_time 1, .recv_pdu (pdu12 4095 [9])]).1
      = some { entity12 with
          rx_next := 0, rx_deliv := 0, t_current := 1, t_reordering_start := 0,
          rx_list := [⟨4294967295, [9]⟩], rx_size := 1 } :=
  ⟨entity12_initial, by decide, by decide⟩

/-! ## Header reads -/

/-- Where every read is inside the buffer, the checked header decode is the
header decode of `nr_pdcp_entity_recv_pdu`. -/
theorem decode_rcvd_sn_checked_eq (sn_size : Nat) (buffer : List Nat)
    (h : decode_header_size sn_size ≤ buffer.length) :
    decode_rcvd_sn_checked sn_size buffer = some (decode_rcvd_sn sn_size buffer) := by
  unfold decode_header_size at h
  unfold decode_rcvd_sn_checked decode_rcvd_sn
  split_ifs at h ⊢
  · match buffer, h with
    | b0 :: b1 :: _, _ => simp
  · match buffer, h with
    | b0 :: b1 :: b2 :: _, _ => simp

/-- C19, the code at the failing input: the one-byte PDU `80` passes the size
and D/C-bit checks of lines 46-54, and the header decode that follows reads
`buffer[1]`, at index 1 = `size`; with an 18-bit SN the two-byte PDU `80 00`
makes it read `buffer[2]`. Only afterwards does the size check of line 69 drop
the PDU. -/
theorem C19_code_at_failing_input :
    (1 ≤ [0x80].length ∧ byte ([0x80].getD 0 0) &&& 0x80 ≠ 0 ∧
      decode_rcvd_sn_checked 12 [0x80] = none ∧
      nr_pdcp_entity_recv_pdu ks0 entity12 [0x80] = some (entity12, [])) ∧
    (1 ≤ [0x80, 0x00].length ∧ byte ([0x80, 0x00].getD 0 0) &&& 0x80 ≠ 0 ∧
      decode_rcvd_sn_checked 18 [0x80, 0x00] = none) :=
  ⟨⟨by decide, by decide, by decide, by decide⟩, by decide, by decide, by decide⟩

/-! ## Header round trip -/

theorem shl_mod_or_mod (x s sn : Nat) (hs : s = 12 ∨ s = 18) (h : sn < 2 ^ s) :
    (((x <<< s) % UINT32) ||| sn) % 2 ^ s = sn := by
  rcases hs with hs | hs
  · subst hs
    have h1 : (x <<< 12) % UINT32 = 2 ^ 12 * (x % 2 ^ 20) := by
      rw [Nat.shiftLeft_eq]; unfold UINT32; omega
    rw [h1, ← Nat.mul_add_lt_is_or h]
    omega
  · subst hs
    have h1 : (x <<< 18) % UINT32 = 2 ^ 18 * (x % 2 ^ 14) := by
      rw [Nat.shiftLeft_eq]; unfold UINT32; omega
    rw [h1, ← Nat.mul_add_lt_is_or h]
    omega

theorem infer_rcvd_count_low_bits (rx : nr_pdcp_entity_t) (sn : Nat)
    (hs : rx.sn_size = 12 ∨ rx.sn_size = 18) (h : sn < 2 ^ rx.sn_size) :
    infer_rcvd_count rx sn % 2 ^ rx.sn_size = sn := by
  unfold infer_rcvd_count
  simp only []
  exact shl_mod_or_mod _ _ _ hs h

/-- C20: for `sn_size` in {12, 18} and every `tx_next`, the header bytes
written by `recv_sdu` pass the D/C-bit check of `recv_pdu` and are decoded by
`recv_pdu` (configured with the same `sn_size`) to
`rcvd_sn = tx_next & sn_max`, with the same `header_size` (2 or 3); and the
COUNT that `recv_pdu` then builds always has its low `sn_size` bits equal to
`rcvd_sn`. -/
theorem C20_header_round_trip (ks : List Nat → Int → Nat → Nat → Nat → Nat)
    (tx rx : nr_pdcp_entity_t) (sdu : List Nat) (sdu_id : Int)
    (hsn : tx.sn_size = 12 ∨ tx.sn_size = 18) (hmax : tx.sn_max = 2 ^ tx.sn_size - 1)
    (hrx : rx.sn_size = tx.sn_size) :
    byte ((nr_pdcp_entity_recv_sdu ks tx sdu sdu_id).2.1.getD 0 0) &&& 0x80 ≠ 0 ∧
    decode_rcvd_sn rx.sn_size (nr_pdcp_entity_recv_sdu ks tx sdu sdu_id).2.1
      = tx.tx_next &&& tx.sn_max ∧
    decode_header_size rx.sn_size
      = (encode_header tx.sn_size (tx.tx_next &&& tx.sn_max)).length ∧
    decode_header_size rx.sn_size = (if tx.sn_size = 12 then 2 else 3) ∧
    pdu_count rx (nr_pdcp_entity_recv_sdu ks tx sdu sdu_id).2.1 % 2 ^ rx.sn_size
      = tx.tx_next &&& tx.sn_max := by
  have hlt : tx.tx_next &&& tx.sn_max < 2 ^ tx.sn_size := by
    rw [hmax, Nat.and_pow_two_sub_one_eq_mod]
    exact Nat.mod_lt _ (Nat.pos_pow_of_pos _ (by norm_num))
  rw [recv_sdu_eq]
  simp only []
  have hdec := decode_encode_header tx.sn_size (tx.tx_next &&& tx.sn_max) hsn hlt
    (if tx.has_ciphering = true then
      cipher ks tx.ciphering_key sdu tx.rb_id tx.tx_next (if tx.is_gnb = true then 1 else 0)
    else sdu)
  refine ⟨encode_header_data_bit _ _ _, ?_, ?_, ?_, ?_⟩
  · rw [hrx]; exact hdec
  · rw [hrx, encode_header_length]
  · rw [hrx]; rfl
  · unfold pdu_count
    rw [hrx, hdec]
    have := infer_rcvd_count_low_bits rx (tx.tx_next &&& tx.sn_max) (by rw [hrx]; exact hsn)
      (by rw [hrx]; exact hlt)
    rw [hrx] at this
    exact this

/-- Witness of C20: an 18-bit entity with `tx_next = 0x12355678` writes the
header `81 56 78` (SN `0x15678`); a receiver with `rx_deliv = 0x40000` decodes
the SN `0x15678` and builds a COUNT whose low 18 bits are `0x15678`. -/
theorem C20_header_round_trip_witness :
    (nr_pdcp_entity_recv_sdu ks0
        { entity12 with sn_size := 18, sn_max := 0x3FFFF, window_size := 0x20000,
                        tx_next := 0x12355678 } [0xAA] 0).2.1 = [0x81, 0x56, 0x78, 0xAA] ∧
    decode_rcvd_sn 18 [0x81, 0x56, 0x78, 0xAA] = 0x15678 ∧
    pdu_count
        { entity12 with sn_size := 18, sn_max := 0x3FFFF, window_size := 0x20000,
                        rx_next := 0x40000, rx_deliv := 0x40000 }
        (nr_pdcp_entity_recv_sdu ks0
          { entity12 with sn_size := 18, sn_max := 0x3FFFF, window_size := 0x20000,
                          tx_next := 0x12355678 } [0xAA] 0).2.1 % 2 ^ 18
      = 0x12355678 &&& 0x3FFFF :=
  ⟨by decide, by decide,
    (C20_header_round_trip ks0
      { entity12 with sn_size := 18, sn_max := 0x3FFFF, window_size := 0x20000,
                      tx_next := 0x12355678 }
      { entity12 with sn_size := 18, sn_max := 0x3FFFF, window_size := 0x20000,
                      rx_next := 0x40000, rx_deliv := 0x40000 }
      [0xAA] 0 (Or.inr rfl) (by decide) rfl).2.2.2.2⟩

end NrPdcp
